import Mathlib

/-!
Shallow embedding of the compose-graphics planar-geometry kernel
(`src/lib/utils.js`, `src/lib/point.js` / `src/lib/math.js`,
`src/lib/geom.js`, `src/lib/edges.js`).

Numbers are modelled as rationals; irrational library calls
(`Math.sqrt`, `Math.cbrt`, `Math.atan2`, `Math.cos`, `Math.PI`, the
sixth root) are abstracted as an `Oracle` of rational-valued functions,
so every definition stays executable and the control flow — which in
the source only branches on exact arithmetic comparisons — is preserved.
-/

/- The kernel evaluates concrete rational arithmetic in the example
runs below; the core rational operations are sealed by default. -/
set_option allowUnsafeReducibility true in
attribute [semireducible] Rat.inv Rat.mul Rat.add Rat.sub Rat.neg Rat.div

/-- `Number.EPSILON` of JavaScript, i.e. `2⁻⁵²`. -/
def jsEpsilon : ℚ := 1 / 2 ^ 52

/-- `Math.round` of JavaScript: half-way cases round toward `+∞`. -/
def jsRound (x : ℚ) : ℚ := ⌊x + 1 / 2⌋

/-- `approx` from `src/lib/utils.js`. -/
def approxQ (x y eps : ℚ) : Bool :=
  x == y || decide (|x - y| < max 1 (max |x| |y|) * eps)

/-- `snapToInteger` from `src/lib/utils.js`. -/
def snapToInteger (x eps : ℚ) : ℚ :=
  if approxQ x (jsRound x) eps then jsRound x else x

/-- Abstraction of the irrational elementary-math library functions used
by the source (`Math.sqrt`, `Math.cbrt`, `x ** (1/6)`, `Math.atan2`,
`Math.cos`, `Math.PI`).  The control flow of the embedded code never
depends on the values these produce. -/
structure Oracle where
  sqrt : ℚ → ℚ
  cbrt : ℚ → ℚ
  pow16 : ℚ → ℚ
  atan2 : ℚ → ℚ → ℚ
  cos : ℚ → ℚ
  pi : ℚ

/-- A fixed dummy oracle used for concrete evaluations. -/
def O0 : Oracle := ⟨fun _ => 0, fun _ => 0, fun _ => 0, fun _ _ => 0, fun _ => 0, 0⟩

/-- `solveLinearEq` from `src/lib/math.js`; `none` is the JS `undefined`
("identically zero") sentinel. -/
def solveLinearEq (c0 c1 : ℚ) : Option (List ℚ) :=
  if c1 = 0 then
    if c0 = 0 then none else some []
  else
    some [-c0 / c1]

/-- `solveQuadraticEq` from `src/lib/math.js`, with `Math.sqrt`
abstracted (it is only applied to the positive discriminant). -/
def solveQuadraticEq (sq : ℚ → ℚ) (c0 c1 c2 : ℚ) : Option (List ℚ) :=
  if c2 = 0 then solveLinearEq c0 c1
  else
    let d := c1 ^ 2 - 4 * c2 * c0
    if d < 0 then some []
    else if d = 0 then some [-c1 / (2 * c2)]
    else
      if 0 ≤ c1 then
        let r2 := (-c1 - sq d) / (2 * c2)
        let r1 := (c0 / c2) / r2
        some [r1, r2]
      else
        let r1 := (-c1 + sq d) / (2 * c2)
        let r2 := (c0 / c2) / r1
        some [r1, r2]

/-- `solveCubicEq` from `src/lib/math.js`. -/
def solveCubicEq (O : Oracle) (c0 c1 c2 c3 : ℚ) : Option (List ℚ) :=
  if c3 = 0 then solveQuadraticEq O.sqrt c0 c1 c2
  else
    let a0 := c0 / c3
    let a1 := c1 / c3
    let a2 := c2 / c3
    let p := 3 * a1 - a2 ^ 2
    let q := 27 * a0 - 9 * a1 * a2 + 2 * a2 ^ 3
    let d := q ^ 2 + 4 * p ^ 3
    if d < 0 then
      let x := -q
      let y := O.sqrt (-d)
      let rc := O.pow16 ((x / 2) ^ 2 + (y / 2) ^ 2)
      let a := O.atan2 y x
      some [(2 * rc * O.cos (a / 3) - a2) / 3,
            (2 * rc * O.cos ((a + 2 * O.pi) / 3) - a2) / 3,
            (2 * rc * O.cos ((a - 2 * O.pi) / 3) - a2) / 3]
    else if d = 0 then
      if q = 0 then some [-a2 / 3]
      else
        let rc := O.cbrt (-q / 2)
        some [(2 * rc - a2) / 3, (-rc - a2) / 3]
    else
      if 0 ≤ q then
        let rc2 := O.cbrt ((-q - O.sqrt d) / 2)
        let rc1 := -p / rc2
        some [(rc1 + rc2 - a2) / 3]
      else
        let rc1 := O.cbrt ((-q + O.sqrt d) / 2)
        let rc2 := -p / rc1
        some [(rc1 + rc2 - a2) / 3]

/-- The depressed discriminant `q² + 4p³` computed by `solveCubicEq`. -/
def cubicDisc (c0 c1 c2 c3 : ℚ) : ℚ :=
  let a0 := c0 / c3
  let a1 := c1 / c3
  let a2 := c2 / c3
  let p := 3 * a1 - a2 ^ 2
  let q := 27 * a0 - 9 * a1 * a2 + 2 * a2 ^ 3
  q ^ 2 + 4 * p ^ 3

/-- `Point` from `src/lib/geom.js`. -/
structure Pt where
  x : ℚ
  y : ℚ
deriving DecidableEq, Repr

namespace Pt

def scale (p : Pt) (ratio : ℚ) : Pt := ⟨p.x * ratio, p.y * ratio⟩

def add (p q : Pt) : Pt := ⟨p.x + q.x, p.y + q.y⟩

def sub (p q : Pt) : Pt := ⟨p.x - q.x, p.y - q.y⟩

def innerProd (p q : Pt) : ℚ := p.x * q.x + p.y * q.y

def outerProd (p q : Pt) : ℚ := p.x * q.y - p.y * q.x

def equals (p q : Pt) : Bool := p.x == q.x && p.y == q.y

end Pt

/-- `Rectangle` from `src/lib/geom.js`. -/
structure Rect where
  x : ℚ
  y : ℚ
  width : ℚ
  height : ℚ
deriving DecidableEq, Repr

namespace Rect

def left (r : Rect) : ℚ := r.x

def right (r : Rect) : ℚ := r.x + r.width

def top (r : Rect) : ℚ := r.y

def bottom (r : Rect) : ℚ := r.y + r.height

def topLeft (r : Rect) : Pt := ⟨r.left, r.top⟩

def isPoint (r : Rect) : Bool := r.width == 0 && r.height == 0

def contains (r : Rect) (p : Pt) : Bool :=
  decide (r.left < p.x) && decide (p.x < r.right) &&
  decide (r.top < p.y) && decide (p.y < r.bottom)

def overlaps (r s : Rect) : Bool :=
  decide (r.left < s.right) && decide (s.left < r.right) &&
  decide (r.top < s.bottom) && decide (s.top < r.bottom)

/-- Modelled from the spec: `Rectangle#hasOnEdge` is absent from
`src/lib/geom.js` (only its unit tests survive); per the spec it holds
when the point lies on one of the four sides, corners included. -/
def hasOnEdge (r : Rect) (p : Pt) : Bool :=
  ((p.x == r.left || p.x == r.right) && decide (r.top ≤ p.y) && decide (p.y ≤ r.bottom)) ||
  ((p.y == r.top || p.y == r.bottom) && decide (r.left ≤ p.x) && decide (p.x ≤ r.right))

/-- Modelled from the spec: `Rectangle#contacts` is absent from
`src/lib/geom.js` (only its unit tests survive); per the spec it holds
when the closures intersect but the open interiors do not. -/
def contacts (r s : Rect) : Bool :=
  (decide (r.left ≤ s.right) && decide (s.left ≤ r.right) &&
   decide (r.top ≤ s.bottom) && decide (s.top ≤ r.bottom)) && !(r.overlaps s)

end Rect

/-- Ordered de-duplicating insert, modelling insertion into a JS `Set`
that already holds the elements of `l` in order. -/
def insertT (l : List ℚ) (t : ℚ) : List ℚ := if t ∈ l then l else l ++ [t]

/-- Minimum of a list, modelling `Math.min(...xs)` on a nonempty list. -/
def listMin : List ℚ → ℚ
  | [] => 0
  | x :: xs => xs.foldl min x

/-- Maximum of a list, modelling `Math.max(...xs)` on a nonempty list. -/
def listMax : List ℚ → ℚ
  | [] => 0
  | x :: xs => xs.foldl max x

/-- The three edge variants of `src/lib/edges.js`:
`Line`, `QuadraticBezier`, `CubicBezier`. -/
inductive Edge where
  | line (start endP : Pt)
  | quad (start control endP : Pt)
  | cubic (start control1 control2 endP : Pt)
deriving DecidableEq, Repr

namespace Edge

/-- The `start` field common to the three variants. -/
def start : Edge → Pt
  | .line s _ => s
  | .quad s _ _ => s
  | .cubic s _ _ _ => s

/-- The `end` field common to the three variants (`end` is reserved in
Lean). -/
def endPt : Edge → Pt
  | .line _ e => e
  | .quad _ _ e => e
  | .cubic _ _ _ e => e

/-- `degree()`. -/
def degree : Edge → ℕ
  | .line _ _ => 1
  | .quad _ _ _ => 2
  | .cubic _ _ _ _ => 3

/-- `pointAt(t)` (Bernstein evaluation), per variant. -/
def pointAt : Edge → ℚ → Pt
  | .line s e, t => (s.scale (1 - t)).add (e.scale t)
  | .quad s c e, t =>
      ((s.scale ((1 - t) ^ 2)).add (c.scale (2 * (1 - t) * t))).add (e.scale (t ^ 2))
  | .cubic s c1 c2 e, t =>
      (((s.scale ((1 - t) ^ 3)).add (c1.scale (3 * (1 - t) ^ 2 * t))).add
        (c2.scale (3 * (1 - t) * t ^ 2))).add (e.scale (t ^ 3))

/-- `splitAt(t)` (de Casteljau), per variant. -/
def splitAt : Edge → ℚ → Edge × Edge
  | .line s e, t =>
      let middle := (Edge.line s e).pointAt t
      (.line s middle, .line middle e)
  | .quad s c e, t =>
      let middle := (Edge.quad s c e).pointAt t
      let controlA := (s.scale (1 - t)).add (c.scale t)
      let controlB := (c.scale (1 - t)).add (e.scale t)
      (.quad s controlA middle, .quad middle controlB e)
  | .cubic s c1 c2 e, t =>
      let middle := (Edge.cubic s c1 c2 e).pointAt t
      let control1A := (s.scale (1 - t)).add (c1.scale t)
      let control2A := ((s.scale ((1 - t) ^ 2)).add (c1.scale (2 * (1 - t) * t))).add
        (c2.scale (t ^ 2))
      let control1B := ((c1.scale ((1 - t) ^ 2)).add (c2.scale (2 * (1 - t) * t))).add
        (e.scale (t ^ 2))
      let control2B := (c2.scale (1 - t)).add (e.scale t)
      (.cubic s control1A control2A middle, .cubic middle control1B control2B e)

end Edge

/-- An `{ t, point }` record as produced by `extremePoints`. -/
structure EPt where
  t : ℚ
  point : Pt
deriving DecidableEq, Repr

namespace Edge

/-- The `t`-values collected by `QuadraticBezier#extremePoints` /
`CubicBezier#extremePoints` before materializing points.  Divisions by
zero produce `0` in ℚ where JS produces `NaN`/`±Infinity`; either way the
`0 < t && t < 1` guard rejects the value, so the outcome agrees.  A
negative radicand makes the JS square root `NaN` (rejected by the same
guard), hence the explicit sign test before consulting the oracle. -/
def extremeTs (O : Oracle) : Edge → List ℚ
  | .line _ _ => [0, 1]
  | .quad s c e =>
      let ets0 : List ℚ := [0, 1]
      let tx := (s.x - c.x) / (s.x - 2 * c.x + e.x)
      let ets1 := if 0 < tx ∧ tx < 1 then insertT ets0 tx else ets0
      let ty := (s.y - c.y) / (s.y - 2 * c.y + e.y)
      if 0 < ty ∧ ty < 1 then insertT ets1 ty else ets1
  | .cubic s c1 c2 e =>
      let ets0 : List ℚ := [0, 1]
      let ax := -s.x + 3 * c1.x - 3 * c2.x + e.x
      let ets2 :=
        if ax ≠ 0 then
          let bx := s.x - 2 * c1.x + c2.x
          let cx := -s.x + c1.x
          if bx ^ 2 - ax * cx < 0 then ets0
          else
            let sq := O.sqrt (bx ^ 2 - ax * cx)
            let tx1 := -(bx - sq) / ax
            let tx2 := -(bx + sq) / ax
            let ets1 := if 0 < tx1 ∧ tx1 < 1 then insertT ets0 tx1 else ets0
            if 0 < tx2 ∧ tx2 < 1 then insertT ets1 tx2 else ets1
        else
          let tx := (s.x - c1.x) / (2 * (s.x - 2 * c1.x + c2.x))
          if 0 < tx ∧ tx < 1 then insertT ets0 tx else ets0
      let ay := -s.y + 3 * c1.y - 3 * c2.y + e.y
      if ay ≠ 0 then
        let by' := s.y - 2 * c1.y + c2.y
        let cy := -s.y + c1.y
        if by' ^ 2 - ay * cy < 0 then ets2
        else
          let sq := O.sqrt (by' ^ 2 - ay * cy)
          let ty1 := -(by' - sq) / ay
          let ty2 := -(by' + sq) / ay
          let ets3 := if 0 < ty1 ∧ ty1 < 1 then insertT ets2 ty1 else ets2
          if 0 < ty2 ∧ ty2 < 1 then insertT ets3 ty2 else ets3
      else
        let ty := (s.y - c1.y) / (2 * (s.y - 2 * c1.y + c2.y))
        if 0 < ty ∧ ty < 1 then insertT ets2 ty else ets2

/-- `extremePoints()`, per variant. -/
def extremePoints (O : Oracle) (e : Edge) : List EPt :=
  match e with
  | .line s e' => [⟨0, s⟩, ⟨1, e'⟩]
  | _ => (e.extremeTs O).map (fun t => ⟨t, e.pointAt t⟩)

/-- `boundingBox()` (identical body in the three variants). -/
def boundingBox (O : Oracle) (e : Edge) : Rect :=
  let eps := e.extremePoints O
  let xs := eps.map (fun ep => ep.point.x)
  let ys := eps.map (fun ep => ep.point.y)
  let left := listMin xs
  let right := listMax xs
  let top := listMin ys
  let bottom := listMax ys
  ⟨left, top, right - left, bottom - top⟩

/-- `deviationFromLine()`; `none` models the JS `Infinity` result. -/
def deviationFromLine (O : Oracle) : Edge → Option ℚ
  | .line _ _ => some 0
  | .quad s c e =>
      let se := e.sub s
      let seSq := se.innerProd se
      let sc := c.sub s
      let l := se.innerProd sc
      if l < 0 ∨ seSq < l then none
      else
        let sp := ((Edge.quad s c e).pointAt (1/2)).sub s
        let dp := se.outerProd sp
        some (|dp| / seSq)
  | .cubic s c1 c2 e =>
      let se := e.sub s
      let seSq := se.innerProd se
      let sc1 := c1.sub s
      let l1 := se.innerProd sc1
      if l1 < 0 ∨ seSq < l1 then none
      else
        let sc2 := c2.sub s
        let l2 := se.innerProd sc2
        if l2 < 0 ∨ seSq < l2 then none
        else
          let dc1 := se.outerProd sc1
          let dc2 := se.outerProd sc2
          if dc1 ≠ dc2 then
            let u := O.sqrt (dc1 ^ 2 - dc1 * dc2 + dc2 ^ 2)
            let t1 := dc1 / (2 * dc1 - dc2 + u)
            let t2 := dc1 / (2 * dc1 - dc2 - u)
            if dc1 * dc2 > 0 then
              if dc1 > 0 then
                let sp := ((Edge.cubic s c1 c2 e).pointAt t1).sub s
                some (|se.outerProd sp| / seSq)
              else
                let sp := ((Edge.cubic s c1 c2 e).pointAt t2).sub s
                some (|se.outerProd sp| / seSq)
            else
              let sp1 := ((Edge.cubic s c1 c2 e).pointAt t1).sub s
              let sp2 := ((Edge.cubic s c1 c2 e).pointAt t2).sub s
              some (max |se.outerProd sp1| |se.outerProd sp2| / seSq)
          else
            let sp := ((Edge.cubic s c1 c2 e).pointAt (1/2)).sub s
            some (|se.outerProd sp| / seSq)

end Edge

/-- The X-axis polynomial solve performed by `paramsForPoint`, per
variant (coefficients exactly as in the source). -/
def paramsX (O : Oracle) (e : Edge) (p : Pt) : Option (List ℚ) :=
  match e with
  | .line s e' => solveLinearEq (s.x - p.x) (e'.x - s.x)
  | .quad s c e' =>
      solveQuadraticEq O.sqrt (s.x - p.x) (-2 * (s.x - c.x)) (s.x - 2 * c.x + e'.x)
  | .cubic s c1 c2 e' =>
      solveCubicEq O (s.x - p.x) (-3 * (s.x - c1.x)) (3 * (s.x - 2 * c1.x + c2.x))
        (-s.x + 3 * c1.x - 3 * c2.x + e'.x)

/-- The Y-axis polynomial solve performed by `paramsForPoint`, per
variant. -/
def paramsY (O : Oracle) (e : Edge) (p : Pt) : Option (List ℚ) :=
  match e with
  | .line s e' => solveLinearEq (s.y - p.y) (e'.y - s.y)
  | .quad s c e' =>
      solveQuadraticEq O.sqrt (s.y - p.y) (-2 * (s.y - c.y)) (s.y - 2 * c.y + e'.y)
  | .cubic s c1 c2 e' =>
      solveCubicEq O (s.y - p.y) (-3 * (s.y - c1.y)) (3 * (s.y - 2 * c1.y + c2.y))
        (-s.y + 3 * c1.y - 3 * c2.y + e'.y)

/-- The tail of `paramsForPoint` shared verbatim by the three variants:
combine the per-axis solver results. -/
def combineParams (eps : ℚ) (txs tys : Option (List ℚ)) : Option (List ℚ) :=
  match txs, tys with
  | none, none => none
  | none, some ts =>
      some ((ts.filter (fun t => decide (0 ≤ t) && decide (t ≤ 1))).map
        (fun t => snapToInteger t eps))
  | some ts, none =>
      some ((ts.filter (fun t => decide (0 ≤ t) && decide (t ≤ 1))).map
        (fun t => snapToInteger t eps))
  | some txs', some tys' =>
      some (txs'.flatMap (fun tx =>
        if tx < 0 ∨ 1 < tx then []
        else tys'.flatMap (fun ty =>
          if ty < 0 ∨ 1 < ty then []
          else if approxQ tx ty eps then [snapToInteger ((tx + ty) / 2) eps] else [])))

/-- `paramsForPoint(point, epsilon)`, per variant. -/
def Edge.paramsForPoint (O : Oracle) (e : Edge) (p : Pt) (eps : ℚ) : Option (List ℚ) :=
  combineParams eps (paramsX O e p) (paramsY O e p)

/-- An `{ t1, t2, point }` record as returned by the public entry
points. -/
structure IPt where
  t1 : ℚ
  t2 : ℚ
  point : Pt
deriving DecidableEq, Repr

/-- `pointFromParams` from `src/lib/edges.js`. -/
def pointFromParams (edge1 edge2 : Edge) (t1 t2 : ℚ) : IPt :=
  let p1 := edge1.pointAt t1
  let p2 := edge2.pointAt t2
  ⟨t1, t2, (p1.add p2).scale (1/2)⟩

/-- `intersecionsLLParams` from `src/lib/edges.js` (sic).  Only the
`start`/`end` fields of the two edges are consulted. -/
def intersecionsLLParams (line1 line2 : Edge) : Option (List ℚ) :=
  let dx1 := line1.endPt.x - line1.start.x
  let dy1 := line1.endPt.y - line1.start.y
  let dx2 := line2.endPt.x - line2.start.x
  let dy2 := line2.endPt.y - line2.start.y
  let dsx := line1.start.x - line2.start.x
  let dsy := line1.start.y - line2.start.y
  let a := dx1 * dy2 - dx2 * dy1
  let b1 := dx2 * dsy - dy2 * dsx
  let b2 := dx1 * dsy - dy1 * dsx
  if a = 0 then
    if b1 = 0 ∨ b2 = 0 then none else some []
  else
    some [b1 / a, b2 / a]

/-- `intersectionsLL` from `src/lib/edges.js`; `none` is the JS
`undefined` ("infinitely many intersections") result. -/
def intersectionsLL (O : Oracle) (line1 line2 : Edge) : Option (List IPt) :=
  let bb1 := line1.boundingBox O
  let bb2 := line2.boundingBox O
  if !(bb1.overlaps bb2) then
    if bb1.contacts bb2 then
      some ((line1.extremePoints O).flatMap (fun ep1 =>
        (line2.extremePoints O).flatMap (fun ep2 =>
          if ep1.point.equals ep2.point then [⟨ep1.t, ep2.t, ep1.point⟩] else [])))
    else
      some []
  else
    match intersecionsLLParams line1 line2 with
    | none => none
    | some [] => some []
    | some ps =>
        let t1 := ps.getD 0 0
        let t2 := ps.getD 1 0
        if 0 ≤ t1 ∧ t1 ≤ 1 ∧ 0 ≤ t2 ∧ t2 ≤ 1 then
          some [pointFromParams line1 line2 t1 t2]
        else
          some []

/-- A `{ t1, t2, err }` record of the subdivision engine. -/
structure IRes where
  t1 : ℚ
  t2 : ℚ
  err : ℚ
deriving DecidableEq, Repr

/-- `_intersectionsLLBulk` from `src/lib/edges.js`: like
`intersectionsLL` but parameter-only, interior-only, no box prefilter. -/
def intersectionsLLBulk (line1 line2 : Edge) : Option (List IRes) :=
  match intersecionsLLParams line1 line2 with
  | none => none
  | some [] => some []
  | some ps =>
      let t1 := ps.getD 0 0
      let t2 := ps.getD 1 0
      if 0 < t1 ∧ t1 < 1 ∧ 0 < t2 ∧ t2 < 1 then
        some [⟨t1, t2, 0⟩]
      else
        some []

/-- `X_EPSILON` from `src/lib/edges.js`. -/
def X_EPSILON : ℚ := 4 * jsEpsilon

/-- `T_EPSILON` from `src/lib/edges.js`. -/
def T_EPSILON : ℚ := 8 * jsEpsilon

/-- `approxPoints` from `src/lib/edges.js`. -/
def approxPoints (p1 p2 : Pt) (eps : ℚ) : Bool :=
  approxQ p1.x p2.x eps && approxQ p1.y p2.y eps

/-- The string constants of the `PT` pair-type table. -/
def PT_PP : String := "point-point"

/-- The `PT.PE` string constant. -/
def PT_PE : String := "point-edge"

/-- The `PT.EP` string constant. -/
def PT_EP : String := "edge-point"

/-- The `PT.EE` string constant. -/
def PT_EE : String := "edge-edge"

/-- The payload (`pair` array) of a subdivision task. -/
inductive Pair where
  | pp (p1 p2 : Pt)
  | pe (p1 : Pt) (e2 : Edge)
  | ep (e1 : Edge) (p2 : Pt)
  | ee (e1 e2 : Edge)
deriving DecidableEq, Repr

/-- A queue entry of `_intersectionsWithSpecialPoints`: the task type is
the string stored by the source, the payload is the `pair` array. -/
structure SubTask where
  i : ℕ
  type : String
  pair : Pair
  t1 : ℚ
  t2 : ℚ
deriving DecidableEq, Repr

/-- The mutable state of one `_intersectionsWithSpecialPoints` call. -/
structure EngS where
  res : List IRes
  exactRes : List IRes
  queue : List SubTask
deriving DecidableEq, Repr

/-- `pushResult` from `_intersectionsWithSpecialPoints`. -/
def pushResult (epsilon : ℚ) (st : EngS) (t1 t2 err : ℚ) : EngS :=
  if st.exactRes.any (fun r => approxQ r.t1 t1 epsilon && approxQ r.t2 t2 epsilon) then st
  else
    let r : IRes := ⟨t1, t2, err⟩
    { st with
        res := st.res ++ [r]
        exactRes := if err = 0 then st.exactRes ++ [r] else st.exactRes }

/-- `enqueue` from `_intersectionsWithSpecialPoints`. -/
def enqueue (st : EngS) (i : ℕ) (type : String) (pair : Pair) (t1 t2 : ℚ) : EngS :=
  { st with queue := st.queue ++ [⟨i, type, pair, t1, t2⟩] }

/-- Outcome of processing one dequeued task. -/
inductive StepRes where
  | ok (st : EngS)
  | indet
  | unknownPair
  | badPayload
deriving DecidableEq, Repr

/-- The `PT.PP` case of the task dispatch. -/
def stepPP (epsilon : ℚ) (st : EngS) (t1 t2 : ℚ) (p1 p2 : Pt) : StepRes :=
  if approxPoints p1 p2 X_EPSILON then .ok (pushResult epsilon st t1 t2 0)
  else .ok st

/-- The `PT.PE` case of the task dispatch. -/
def stepPE (O : Oracle) (depth : ℕ) (epsilon : ℚ) (maxIteration : ℤ) (itr : ℕ)
    (st : EngS) (i : ℕ) (t1 t2 err delta : ℚ) (p1 : Pt) (e2 : Edge) : StepRes :=
  let bb2 := e2.boundingBox O
  if bb2.isPoint then .ok (enqueue st i PT_PP (.pp p1 bb2.topLeft) t1 t2)
  else
    let onEdge := bb2.hasOnEdge p1
    let st1 :=
      if onEdge then
        (e2.extremePoints O).foldl
          (fun s ep2 => enqueue s i PT_PP (.pp p1 ep2.point) t1 (t2 + (ep2.t - 1/2) * (1/2) ^ i))
          st
      else st
    if onEdge || bb2.contains p1 then
      if i ≥ depth ∨ (0 ≤ maxIteration ∧ maxIteration ≤ (itr : ℤ)) then
        .ok (pushResult epsilon st1 t1 t2 err)
      else
        match e2.paramsForPoint O p1 T_EPSILON with
        | none => .indet
        | some pt2s =>
            let st2 := pt2s.foldl
              (fun s pt2 =>
                if pt2 = 0 ∨ pt2 = 1 then s
                else pushResult epsilon s t1 (t2 + (pt2 - 1/2) * (1/2) ^ i) 0)
              st1
            let p2 := e2.pointAt (1/2)
            let sp := e2.splitAt (1/2)
            let st3 := enqueue st2 i PT_PP (.pp p1 p2) t1 t2
            let st4 := enqueue st3 (i+1) PT_PE (.pe p1 sp.1) t1 (t2 - delta)
            .ok (enqueue st4 (i+1) PT_PE (.pe p1 sp.2) t1 (t2 + delta))
    else .ok st1

/-- The `PT.EP` case of the task dispatch (mirror image of `stepPE`). -/
def stepEP (O : Oracle) (depth : ℕ) (epsilon : ℚ) (maxIteration : ℤ) (itr : ℕ)
    (st : EngS) (i : ℕ) (t1 t2 err delta : ℚ) (e1 : Edge) (p2 : Pt) : StepRes :=
  let bb1 := e1.boundingBox O
  if bb1.isPoint then .ok (enqueue st i PT_PP (.pp bb1.topLeft p2) t1 t2)
  else
    let onEdge := bb1.hasOnEdge p2
    let st1 :=
      if onEdge then
        (e1.extremePoints O).foldl
          (fun s ep1 => enqueue s i PT_PP (.pp ep1.point p2) (t1 + (ep1.t - 1/2) * (1/2) ^ i) t2)
          st
      else st
    if onEdge || bb1.contains p2 then
      if i ≥ depth ∨ (0 ≤ maxIteration ∧ maxIteration ≤ (itr : ℤ)) then
        .ok (pushResult epsilon st1 t1 t2 err)
      else
        match e1.paramsForPoint O p2 T_EPSILON with
        | none => .indet
        | some pt1s =>
            let st2 := pt1s.foldl
              (fun s pt1 =>
                if pt1 = 0 ∨ pt1 = 1 then s
                else pushResult epsilon s (t1 + (pt1 - 1/2) * (1/2) ^ i) t2 0)
              st1
            let p1 := e1.pointAt (1/2)
            let sp := e1.splitAt (1/2)
            let st3 := enqueue st2 i PT_PP (.pp p1 p2) t1 t2
            let st4 := enqueue st3 (i+1) PT_EP (.ep sp.1 p2) (t1 - delta) t2
            .ok (enqueue st4 (i+1) PT_EP (.ep sp.2 p2) (t1 + delta) t2)
    else .ok st1

/-- `devLt d m` models the JS comparison `d < m` where `d` may be
`Infinity` (`none`). -/
def devLt (d : Option ℚ) (m : ℚ) : Bool :=
  match d with
  | none => false
  | some v => decide (v < m)

/-- `devEq0 d` models the JS comparison `d === 0` where `d` may be
`Infinity` (`none`). -/
def devEq0 (d : Option ℚ) : Bool :=
  match d with
  | none => false
  | some v => v == 0

/-- The split-and-enqueue tail of the `PT.EE` case: the nine
descendant tasks. -/
def enqueueEESplit (st : EngS) (i : ℕ) (t1 t2 delta : ℚ) (e1 e2 : Edge) : EngS :=
  let p1 := e1.pointAt (1/2)
  let p2 := e2.pointAt (1/2)
  let sp1 := e1.splitAt (1/2)
  let sp2 := e2.splitAt (1/2)
  let st1 := enqueue st i PT_PP (.pp p1 p2) t1 t2
  let st2 := enqueue st1 (i+1) PT_PE (.pe p1 sp2.1) t1 (t2 - delta)
  let st3 := enqueue st2 (i+1) PT_PE (.pe p1 sp2.2) t1 (t2 + delta)
  let st4 := enqueue st3 (i+1) PT_EP (.ep sp1.1 p2) (t1 - delta) t2
  let st5 := enqueue st4 (i+1) PT_EP (.ep sp1.2 p2) (t1 + delta) t2
  let st6 := enqueue st5 (i+1) PT_EE (.ee sp1.1 sp2.1) (t1 - delta) (t2 - delta)
  let st7 := enqueue st6 (i+1) PT_EE (.ee sp1.1 sp2.2) (t1 - delta) (t2 + delta)
  let st8 := enqueue st7 (i+1) PT_EE (.ee sp1.2 sp2.1) (t1 + delta) (t2 - delta)
  enqueue st8 (i+1) PT_EE (.ee sp1.2 sp2.2) (t1 + delta) (t2 + delta)

/-- The `PT.EE` case of the task dispatch. -/
def stepEE (O : Oracle) (depth : ℕ) (epsilon : ℚ) (maxIteration : ℤ) (itr : ℕ)
    (st : EngS) (i : ℕ) (t1 t2 err delta : ℚ) (e1 e2 : Edge) : StepRes :=
  let bb1 := e1.boundingBox O
  let bb2 := e2.boundingBox O
  if bb1.isPoint then
    let p1 := bb1.topLeft
    if bb2.contains p1 then .ok (enqueue st i PT_PE (.pe p1 e2) t1 t2) else .ok st
  else if bb2.isPoint then
    let p2 := bb2.topLeft
    if bb1.contains p2 then .ok (enqueue st i PT_EP (.ep e1 p2) t1 t2) else .ok st
  else if bb1.overlaps bb2 then
    if i ≥ depth ∨ (0 ≤ maxIteration ∧ maxIteration ≤ (itr : ℤ)) then
      .ok (pushResult epsilon st t1 t2 err)
    else
      let dl1 := e1.deviationFromLine O
      let dl2 := e2.deviationFromLine O
      let maxdl : ℚ := if i = 0 then 0 else min (5/100000 * 2 ^ i) (1/10)
      if devLt dl1 maxdl && devLt dl2 maxdl then
        match intersectionsLLBulk (.line e1.start e1.endPt) (.line e2.start e2.endPt) with
        | none =>
            if devEq0 dl1 && devEq0 dl2 then .indet
            else .ok (enqueueEESplit st i t1 t2 delta e1 e2)
        | some l =>
            if l.isEmpty then .ok st
            else .ok (enqueueEESplit st i t1 t2 delta e1 e2)
      else .ok (enqueueEESplit st i t1 t2 delta e1 e2)
  else .ok st

/-- One iteration of the dispatch `switch` of
`_intersectionsWithSpecialPoints`: the dequeued task's `type` string
selects the case; an unrecognized string is the fatal
"unknown pair type" branch (`.unknownPair`); a recognized string whose
payload has the wrong shape cannot arise (see the reachability
invariant below) and is mapped to `.badPayload`. -/
def stepTask (O : Oracle) (depth : ℕ) (epsilon : ℚ) (maxIteration : ℤ) (itr : ℕ)
    (st : EngS) (tk : SubTask) : StepRes :=
  let err := max ((1/2 : ℚ) ^ tk.i) jsEpsilon
  let delta := (1/2 : ℚ) ^ (tk.i + 2)
  if tk.type = PT_PP then
    match tk.pair with
    | .pp p1 p2 => stepPP epsilon st tk.t1 tk.t2 p1 p2
    | _ => .badPayload
  else if tk.type = PT_PE then
    match tk.pair with
    | .pe p1 e2 => stepPE O depth epsilon maxIteration itr st tk.i tk.t1 tk.t2 err delta p1 e2
    | _ => .badPayload
  else if tk.type = PT_EP then
    match tk.pair with
    | .ep e1 p2 => stepEP O depth epsilon maxIteration itr st tk.i tk.t1 tk.t2 err delta e1 p2
    | _ => .badPayload
  else if tk.type = PT_EE then
    match tk.pair with
    | .ee e1 e2 => stepEE O depth epsilon maxIteration itr st tk.i tk.t1 tk.t2 err delta e1 e2
    | _ => .badPayload
  else .unknownPair

/-- Possible outcomes of a (fuel-bounded) engine run. -/
inductive EngOut where
  | finite (l : List IRes)
  | indet
  | unknownPair
  | badPayload
  | outOfFuel
deriving DecidableEq, Repr

/-- The `while (queue.length > 0)` loop of
`_intersectionsWithSpecialPoints`: dequeue, dispatch, then apply the
Bézout-bound early exit (`exactRes.length > maxIntersections` returns
the Indeterminate marker) and advance the iteration counter. -/
def runLoop (O : Oracle) (depth : ℕ) (epsilon : ℚ) (maxIteration : ℤ) (maxInts : ℕ) :
    ℕ → ℕ → EngS → EngOut
  | 0, _, _ => .outOfFuel
  | _ + 1, _, ⟨res, _, []⟩ => .finite res
  | fuel + 1, itr, ⟨res, exact, tk :: rest⟩ =>
      match stepTask O depth epsilon maxIteration itr ⟨res, exact, rest⟩ tk with
      | .indet => .indet
      | .unknownPair => .unknownPair
      | .badPayload => .badPayload
      | .ok st' =>
          if st'.exactRes.length > maxInts then .indet
          else runLoop O depth epsilon maxIteration maxInts fuel (itr + 1) st'

/-- The initial queue of `_intersectionsWithSpecialPoints`: all PP
pairs of special points, a PE task per special point of `edge1`, an EP
task per special point of `edge2`, and the root EE task. -/
def seedQueue (edge1 edge2 : Edge) (sp1 sp2 : List EPt) : List SubTask :=
  (sp1.flatMap (fun a => sp2.map (fun b => (⟨0, PT_PP, .pp a.point b.point, a.t, b.t⟩ : SubTask)))) ++
  sp1.map (fun a => (⟨0, PT_PE, .pe a.point edge2, a.t, 1/2⟩ : SubTask)) ++
  sp2.map (fun b => (⟨0, PT_EP, .ep edge1 b.point, 1/2, b.t⟩ : SubTask)) ++
  [⟨0, PT_EE, .ee edge1 edge2, 1/2, 1/2⟩]

/-- `_intersectionsWithSpecialPoints` from `src/lib/edges.js`, bounded
by an explicit fuel (the source loop terminates; fuel exhaustion is the
distinguished `.outOfFuel` outcome). -/
def intersectionsWSP (O : Oracle) (edge1 edge2 : Edge) (sp1 sp2 : List EPt)
    (depth : ℕ) (epsilon : ℚ) (maxIteration : ℤ) (fuel : ℕ) : EngOut :=
  let maxInts := edge1.degree * edge2.degree
  runLoop O depth epsilon maxIteration maxInts fuel 0
    ⟨[], [], seedQueue edge1 edge2 sp1 sp2⟩

/-- The closeness test of `mergeNeighboringPoints`: both parameters
approximately equal within `max(√2·(err₁+err₂), ε)`.  `Math.SQRT2` is
irrational and is abstracted as the parameter `sqrt2`. -/
def closeRes (sqrt2 epsilon : ℚ) (r1 r2 : IRes) : Bool :=
  let err := max (sqrt2 * (r1.err + r2.err)) epsilon
  approxQ r1.t1 r2.t1 err && approxQ r1.t2 r2.t2 err

/-- Mark index `k` in the removal map. -/
def setRem (rem : ℕ → Bool) (k : ℕ) : ℕ → Bool :=
  fun m => if m = k then true else rem m

/-- Default result record used for (never out-of-range) list indexing. -/
def dRes : IRes := ⟨0, 0, 0⟩

/-- The inner `for (let j = i + 1; ...)` loop of
`mergeNeighboringPoints`, iterated over the index list `js`.  Note the
source keeps scanning with the same `r1` even after `removed[i]` has
been set. -/
def mergeInner (sqrt2 epsilon : ℚ) (res : List IRes) (i : ℕ) (r1 : IRes) :
    List ℕ → (ℕ → Bool) → (ℕ → Bool)
  | [], rem => rem
  | j :: js, rem =>
      let rem' :=
        if rem j then rem
        else
          let r2 := res.getD j dRes
          if closeRes sqrt2 epsilon r1 r2 then
            if r1.err > r2.err then setRem rem i
            else if r1.err < r2.err then setRem rem j
            else setRem rem j
          else rem
      mergeInner sqrt2 epsilon res i r1 js rem'

/-- The outer `for (let i = 0; ...)` loop of `mergeNeighboringPoints`,
iterated over the index list `is`. -/
def mergeOuter (sqrt2 epsilon : ℚ) (res : List IRes) :
    List ℕ → (ℕ → Bool) → (ℕ → Bool)
  | [], rem => rem
  | i :: is, rem =>
      let rem' :=
        if rem i then rem
        else mergeInner sqrt2 epsilon res i (res.getD i dRes)
          (List.range' (i + 1) (res.length - (i + 1))) rem
      mergeOuter sqrt2 epsilon res is rem'

/-- `mergeNeighboringPoints` from `src/lib/edges.js`: a quadratic scan
marks removals in a boolean map, then the list is filtered by index. -/
def mergeNeighboringPoints (sqrt2 : ℚ) (res : List IRes) (epsilon : ℚ) : List IRes :=
  let rem := mergeOuter sqrt2 epsilon res (List.range res.length) (fun _ => false)
  (res.enum.filter (fun p => !rem p.1)).map Prod.snd

/-- Outcomes of the public entry points `intersections` /
`selfIntersections`. -/
inductive IOut where
  | pts (l : List IPt)
  | indet
  | unknownPair
  | badPayload
  | outOfFuel
deriving DecidableEq, Repr

/-- `intersections` from `src/lib/edges.js`: line/line dispatches to the
exact intersector, any other pair runs the subdivision engine with the
edges' extreme points as special points, then deduplicates and maps
parameters to points. -/
def intersections (O : Oracle) (sqrt2 : ℚ) (edge1 edge2 : Edge) (depth : ℕ)
    (epsilon : ℚ) (maxIteration : ℤ) (fuel : ℕ) : IOut :=
  if edge1.degree = 1 ∧ edge2.degree = 1 then
    match intersectionsLL O edge1 edge2 with
    | none => .indet
    | some l => .pts l
  else
    match intersectionsWSP O edge1 edge2 (edge1.extremePoints O) (edge2.extremePoints O)
        depth epsilon maxIteration fuel with
    | .finite res =>
        .pts ((mergeNeighboringPoints sqrt2 res epsilon).map
          (fun r => pointFromParams edge1 edge2 r.t1 r.t2))
    | .indet => .indet
    | .unknownPair => .unknownPair
    | .badPayload => .badPayload
    | .outOfFuel => .outOfFuel

/-- Stable insertion into a `t`-sorted list of extreme points; models
the (stable) JS `sort((ep1, ep2) => ep1.t - ep2.t)`. -/
def insertByT (ep : EPt) : List EPt → List EPt
  | [] => [ep]
  | x :: xs => if x.t ≤ ep.t then x :: insertByT ep xs else ep :: x :: xs

/-- Stable sort by `t` (insertion sort; the sorted lists here are
duplicate-free so any stable sort agrees with the JS one). -/
def sortByT (l : List EPt) : List EPt := l.foldl (fun acc x => insertByT x acc) []

/-- A `{ edge, t, ratio }` record of the `selfIntersections` split
table: the split covers global parameters `t + ratio·u`, `u ∈ [0,1]`. -/
structure Split where
  edge : Edge
  t : ℚ
  ratio : ℚ
deriving DecidableEq, Repr

/-- The split-construction loop of `selfIntersections`: cut the running
remainder at each interior extreme point (rescaled into the remainder's
parameter space). -/
def buildSplits : Edge → ℚ → List EPt → List Split
  | current, t, [] => [⟨current, t, 1 - t⟩]
  | current, t, ep :: rest =>
      let pr := current.splitAt ((ep.t - t) / (1 - t))
      ⟨pr.1, t, ep.t - t⟩ :: buildSplits pr.2 ep.t rest

/-- The special point set handed to the engine for the first member
`s_i` of a split pair `(s_i, s_j)`: the global start only for the first
split, the split's end only when the pair is not adjacent. -/
def selfSP1 (i j : ℕ) (e : Edge) : List EPt :=
  (if i = 0 then [⟨0, e.start⟩] else []) ++ (if i + 1 ≠ j then [⟨1, e.endPt⟩] else [])

/-- The special point set handed to the engine for the second member
`s_j` of a split pair: always exactly its end point. -/
def selfSP2 (e : Edge) : List EPt := [⟨1, e.endPt⟩]

/-- Default split record used for (never out-of-range) list indexing. -/
def dSplit : Split := ⟨.line ⟨0,0⟩ ⟨0,0⟩, 0, 0⟩

/-- The pair loop of `selfIntersections`: run the engine on each split
pair `(i, j)`, `i < j`, with the tailored special points, and map each
local result back to global parameters `t + ratio·u`. -/
def selfLoop (O : Oracle) (splits : List Split) (depth : ℕ) (epsilon : ℚ)
    (maxIteration : ℤ) (fuel : ℕ) : List (ℕ × ℕ) → List IRes → EngOut
  | [], acc => .finite acc
  | (i, j) :: rest, acc =>
      let s1 := splits.getD i dSplit
      let s2 := splits.getD j dSplit
      match intersectionsWSP O s1.edge s2.edge (selfSP1 i j s1.edge) (selfSP2 s2.edge)
          depth epsilon maxIteration fuel with
      | .finite rs =>
          selfLoop O splits depth epsilon maxIteration fuel rest
            (acc ++ rs.map (fun r => ⟨s1.t + s1.ratio * r.t1, s2.t + s2.ratio * r.t2, r.err⟩))
      | .indet => .indet
      | .unknownPair => .unknownPair
      | .badPayload => .badPayload
      | .outOfFuel => .outOfFuel

/-- The ordered index pairs `(i, j)`, `i < j < n`, visited by the pair
loop of `selfIntersections`. -/
def pairIdx (n : ℕ) : List (ℕ × ℕ) :=
  (List.range n).flatMap (fun i => (List.range' (i + 1) (n - (i + 1))).map (fun j => (i, j)))

/-- `selfIntersections` from `src/lib/edges.js`. -/
def selfIntersections (O : Oracle) (sqrt2 : ℚ) (edge : Edge) (depth : ℕ)
    (epsilon : ℚ) (maxIteration : ℤ) (fuel : ℕ) : IOut :=
  let eps := sortByT (edge.extremePoints O)
  let splits := buildSplits edge 0 ((eps.drop 1).dropLast)
  match selfLoop O splits depth epsilon maxIteration fuel (pairIdx splits.length) [] with
  | .finite res =>
      .pts ((mergeNeighboringPoints sqrt2 res epsilon).map
        (fun r => pointFromParams edge edge r.t1 r.t2))
  | .indet => .indet
  | .unknownPair => .unknownPair
  | .badPayload => .badPayload
  | .outOfFuel => .outOfFuel

/-- C5: for `c2 ≠ 0` and discriminant `d = c1² − 4·c2·c0`,
`solveQuadraticEq` returns `[]` when `d < 0`, the single root
`−c1/(2c2)` when `d = 0`, and for `d > 0` exactly two roots: one from
the same-sign formula (`(−c1 − √d)/(2c2)` for `c1 ≥ 0`,
`(−c1 + √d)/(2c2)` for `c1 < 0`) and the other `(c0/c2)` divided by
that root. -/
theorem solveQuadraticEq_branch_structure (sq : ℚ → ℚ) (c0 c1 c2 : ℚ) (h : c2 ≠ 0) :
    (c1 ^ 2 - 4 * c2 * c0 < 0 → solveQuadraticEq sq c0 c1 c2 = some []) ∧
    (c1 ^ 2 - 4 * c2 * c0 = 0 → solveQuadraticEq sq c0 c1 c2 = some [-c1 / (2 * c2)]) ∧
    (0 < c1 ^ 2 - 4 * c2 * c0 →
      (0 ≤ c1 → solveQuadraticEq sq c0 c1 c2 =
        some [(c0 / c2) / ((-c1 - sq (c1 ^ 2 - 4 * c2 * c0)) / (2 * c2)),
              (-c1 - sq (c1 ^ 2 - 4 * c2 * c0)) / (2 * c2)]) ∧
      (c1 < 0 → solveQuadraticEq sq c0 c1 c2 =
        some [(-c1 + sq (c1 ^ 2 - 4 * c2 * c0)) / (2 * c2),
              (c0 / c2) / ((-c1 + sq (c1 ^ 2 - 4 * c2 * c0)) / (2 * c2))])) := by
  unfold solveQuadraticEq
  rw [if_neg h]
  refine ⟨fun hd => ?_, fun hd => ?_, fun hd => ⟨fun hc => ?_, fun hc => ?_⟩⟩
  · rw [if_pos hd]
  · rw [if_neg (by simp [hd]), if_pos hd]
  · rw [if_neg (by linarith), if_neg (by linarith), if_pos hc]
  · rw [if_neg (by linarith), if_neg (by linarith), if_neg (by linarith)]

/-- Witness for C5 at `c0 = −1, c1 = 0, c2 = 1` (so `d = 4 > 0`) with a
square-root function sending `4` to `2`: the same-sign root is `−1` and
the product-of-roots companion is `1`. -/
theorem solveQuadraticEq_branch_structure_witness :
    solveQuadraticEq (fun _ => 2) (-1) 0 1 = some [1, -1] := by
  have h := ((solveQuadraticEq_branch_structure (fun _ => 2) (-1) 0 1 (by norm_num)).2.2
    (by norm_num)).1 (by norm_num)
  rw [h]
  norm_num

/-- `solveLinearEq` is the zero-polynomial sentinel exactly when both
coefficients vanish. -/
theorem solveLinearEq_eq_none_iff (c0 c1 : ℚ) :
    solveLinearEq c0 c1 = none ↔ c1 = 0 ∧ c0 = 0 := by
  unfold solveLinearEq
  split_ifs <;> simp_all

/-- `solveQuadraticEq` is the zero-polynomial sentinel exactly when all
three coefficients vanish. -/
theorem solveQuadraticEq_eq_none_iff (sq : ℚ → ℚ) (c0 c1 c2 : ℚ) :
    solveQuadraticEq sq c0 c1 c2 = none ↔ c2 = 0 ∧ c1 = 0 ∧ c0 = 0 := by
  unfold solveQuadraticEq
  dsimp only
  split_ifs <;> simp_all [solveLinearEq_eq_none_iff]

/-- C10: with leading coefficient `c3 ≠ 0`, `solveCubicEq` never yields
the Indeterminate sentinel nor the empty list — it returns three roots
when the depressed discriminant is negative, one or two when it is
zero, and one when it is positive; the sentinel arises exactly when all
four supplied coefficients are zero (through the degraded `c3 = 0`
path). -/
theorem solveCubicEq_structure (O : Oracle) (c0 c1 c2 c3 : ℚ) :
    (c3 ≠ 0 → ∃ l, solveCubicEq O c0 c1 c2 c3 = some l ∧ l ≠ [] ∧
      (cubicDisc c0 c1 c2 c3 < 0 → l.length = 3) ∧
      (cubicDisc c0 c1 c2 c3 = 0 → l.length = 1 ∨ l.length = 2) ∧
      (0 < cubicDisc c0 c1 c2 c3 → l.length = 1)) ∧
    (solveCubicEq O c0 c1 c2 c3 = none ↔ c0 = 0 ∧ c1 = 0 ∧ c2 = 0 ∧ c3 = 0) := by
  constructor
  · intro h3
    unfold solveCubicEq cubicDisc
    rw [if_neg h3]
    dsimp only
    split_ifs with h1 h2 h4 <;> refine ⟨_, rfl, by simp, ?_, ?_, ?_⟩ <;>
      intro hd <;> first
      | (exfalso; simp_all; linarith)
      | simp_all
  · unfold solveCubicEq
    dsimp only
    split_ifs with h3
    · rw [solveQuadraticEq_eq_none_iff, h3]
      tauto
    all_goals simp_all

/-- Witness for C10 at the seed cubic `t³ + 2t² − 5t − 6` (coefficients
`(−6, −5, 2, 1)`, negative depressed discriminant): three roots come
back, and the sentinel indeed requires all-zero coefficients. -/
theorem solveCubicEq_structure_witness :
    cubicDisc (-6) (-5) 2 1 < 0 ∧
      (∃ l, solveCubicEq O0 (-6) (-5) 2 1 = some l ∧ l.length = 3) ∧
      solveCubicEq O0 0 0 0 0 = none := by
  have hd : cubicDisc (-6) (-5) 2 1 < 0 := by norm_num [cubicDisc]
  refine ⟨hd, ?_, ?_⟩
  · obtain ⟨l, hl, -, h3, -, -⟩ := (solveCubicEq_structure O0 (-6) (-5) 2 1).1 (by norm_num)
    exact ⟨l, hl, h3 hd⟩
  · exact (solveCubicEq_structure O0 0 0 0 0).2.mpr ⟨rfl, rfl, rfl, rfl⟩

/-- C4: for every edge variant, when exactly one per-axis solver of
`paramsForPoint` yields the Indeterminate sentinel the other axis's
roots are returned filtered to `0 ≤ t ≤ 1` and snapped to integers, and
when both axes are Indeterminate the whole call is Indeterminate. -/
theorem paramsForPoint_indeterminate_axes (O : Oracle) (e : Edge) (p : Pt) (eps : ℚ) :
    (paramsX O e p = none → paramsY O e p = none →
      e.paramsForPoint O p eps = none) ∧
    (∀ l, paramsX O e p = none → paramsY O e p = some l →
      e.paramsForPoint O p eps =
        some ((l.filter (fun t => decide (0 ≤ t) && decide (t ≤ 1))).map
          (fun t => snapToInteger t eps))) ∧
    (∀ l, paramsY O e p = none → paramsX O e p = some l →
      e.paramsForPoint O p eps =
        some ((l.filter (fun t => decide (0 ≤ t) && decide (t ≤ 1))).map
          (fun t => snapToInteger t eps))) := by
  refine ⟨fun hx hy => ?_, fun l hx hy => ?_, fun l hy hx => ?_⟩ <;>
    simp [Edge.paramsForPoint, combineParams, hx, hy]

/-- Witness for C4: the degenerate vertical line from `(0,0)` to `(0,2)`
queried at `(0,1)` has an identically-zero X polynomial and recovers
`t = 1/2` from the Y axis alone; the point-degenerate line at the
origin is Indeterminate on both axes. -/
theorem paramsForPoint_indeterminate_axes_witness :
    (Edge.line ⟨0,0⟩ ⟨0,2⟩).paramsForPoint O0 ⟨0,1⟩ T_EPSILON = some [1/2] ∧
    (Edge.line ⟨0,0⟩ ⟨0,0⟩).paramsForPoint O0 ⟨0,0⟩ T_EPSILON = none := by
  constructor
  · have h := (paramsForPoint_indeterminate_axes O0 (.line ⟨0,0⟩ ⟨0,2⟩) ⟨0,1⟩ T_EPSILON).2.1
      [1/2] (by decide) (by norm_num [paramsY, solveLinearEq])
    rw [h]
    decide
  · exact (paramsForPoint_indeterminate_axes O0 (.line ⟨0,0⟩ ⟨0,0⟩) ⟨0,0⟩ T_EPSILON).1
      (by decide) (by decide)

/-- The determinant `a = d1.x·d2.y − d2.x·d1.y` of
`intersecionsLLParams`. -/
def llDetA (l1 l2 : Edge) : ℚ :=
  (l1.endPt.x - l1.start.x) * (l2.endPt.y - l2.start.y) -
    (l2.endPt.x - l2.start.x) * (l1.endPt.y - l1.start.y)

/-- The auxiliary determinant `b1 = d2.x·ds.y − d2.y·ds.x`. -/
def llDetB1 (l1 l2 : Edge) : ℚ :=
  (l2.endPt.x - l2.start.x) * (l1.start.y - l2.start.y) -
    (l2.endPt.y - l2.start.y) * (l1.start.x - l2.start.x)

/-- The auxiliary determinant `b2 = d1.x·ds.y − d1.y·ds.x`. -/
def llDetB2 (l1 l2 : Edge) : ℚ :=
  (l1.endPt.x - l1.start.x) * (l1.start.y - l2.start.y) -
    (l1.endPt.y - l1.start.y) * (l1.start.x - l2.start.x)

/-- `intersecionsLLParams` is the Indeterminate sentinel exactly when
`a = 0` and `b1 = 0` or `b2 = 0`. -/
theorem intersecionsLLParams_eq_none_iff (l1 l2 : Edge) :
    intersecionsLLParams l1 l2 = none ↔
      llDetA l1 l2 = 0 ∧ (llDetB1 l1 l2 = 0 ∨ llDetB2 l1 l2 = 0) := by
  unfold intersecionsLLParams llDetA llDetB1 llDetB2
  dsimp only
  split_ifs <;> simp_all

/-- When `a = 0` and both auxiliary determinants are nonzero,
`intersecionsLLParams` returns the empty parameter list. -/
theorem intersecionsLLParams_parallel_disjoint (l1 l2 : Edge)
    (ha : llDetA l1 l2 = 0) (hb1 : llDetB1 l1 l2 ≠ 0) (hb2 : llDetB2 l1 l2 ≠ 0) :
    intersecionsLLParams l1 l2 = some [] := by
  unfold intersecionsLLParams
  unfold llDetA at ha
  unfold llDetB1 at hb1
  unfold llDetB2 at hb2
  dsimp only
  rw [if_pos ha, if_neg (by tauto)]

/-- C3: when the two segments' bounding boxes openly overlap,
`intersectionsLL` is Indeterminate exactly when the main determinant
`a = d1.x·d2.y − d2.x·d1.y` vanishes together with one of the auxiliary
determinants `b1`, `b2`; if `a = 0` but both `b1` and `b2` are nonzero
it returns the empty list. -/
theorem intersectionsLL_parallel_cases (O : Oracle) (l1 l2 : Edge)
    (h : (l1.boundingBox O).overlaps (l2.boundingBox O) = true) :
    (intersectionsLL O l1 l2 = none ↔
      llDetA l1 l2 = 0 ∧ (llDetB1 l1 l2 = 0 ∨ llDetB2 l1 l2 = 0)) ∧
    (llDetA l1 l2 = 0 → llDetB1 l1 l2 ≠ 0 → llDetB2 l1 l2 ≠ 0 →
      intersectionsLL O l1 l2 = some []) := by
  unfold intersectionsLL
  dsimp only
  rw [h]
  simp only [Bool.not_true, Bool.false_eq_true, if_false]
  constructor
  · rw [← intersecionsLLParams_eq_none_iff]
    rcases hp : intersecionsLLParams l1 l2 with - | ps
    · simp
    · match ps with
      | [] => simp
      | t1 :: rest =>
          dsimp only
          constructor
          · intro hcon
            exact absurd hcon (by split <;> simp)
          · intro hcon
            simp at hcon
  · intro ha hb1 hb2
    rw [intersecionsLLParams_parallel_disjoint l1 l2 ha hb1 hb2]

/-- Witness for C3 at the spec's seed scenario: the collinear pair
`L((0,0),(3,3))`, `L((0,0),(2,2))` has openly overlapping boxes,
`a = b1 = b2 = 0`, and `intersectionsLL` is Indeterminate. -/
theorem intersectionsLL_parallel_cases_witness :
    intersectionsLL O0 (.line ⟨0,0⟩ ⟨3,3⟩) (.line ⟨0,0⟩ ⟨2,2⟩) = none := by
  exact (intersectionsLL_parallel_cases O0 (.line ⟨0,0⟩ ⟨3,3⟩) (.line ⟨0,0⟩ ⟨2,2⟩)
    (by decide)).1.mpr (by decide)

/-- C2 (amended): a dequeued EE task whose first box is a point is
reduced to a PE task against the second edge — at the same depth and
the same `(t1, t2)` — only when the second box strictly contains that
point, and is discarded otherwise; symmetrically, when the first box is
not a point and the second is, it becomes an EP task only when the
first box strictly contains the point. -/
theorem stepTask_EE_point_box (O : Oracle) (depth : ℕ) (epsilon : ℚ)
    (maxIteration : ℤ) (itr : ℕ) (st : EngS) (i : ℕ) (t1 t2 : ℚ) (e1 e2 : Edge) :
    ((e1.boundingBox O).isPoint = true →
      stepTask O depth epsilon maxIteration itr st ⟨i, PT_EE, .ee e1 e2, t1, t2⟩ =
        .ok (if (e2.boundingBox O).contains ((e1.boundingBox O).topLeft) then
               enqueue st i PT_PE (.pe ((e1.boundingBox O).topLeft) e2) t1 t2
             else st)) ∧
    ((e1.boundingBox O).isPoint = false → (e2.boundingBox O).isPoint = true →
      stepTask O depth epsilon maxIteration itr st ⟨i, PT_EE, .ee e1 e2, t1, t2⟩ =
        .ok (if (e1.boundingBox O).contains ((e2.boundingBox O).topLeft) then
               enqueue st i PT_EP (.ep e1 ((e2.boundingBox O).topLeft)) t1 t2
             else st)) := by
  constructor
  · intro h1
    unfold stepTask
    dsimp only
    rw [if_neg (by decide), if_neg (by decide), if_neg (by decide), if_pos rfl]
    unfold stepEE
    dsimp only
    rw [h1]
    simp only [if_true]
    split <;> rfl
  · intro h1 h2
    unfold stepTask
    dsimp only
    rw [if_neg (by decide), if_neg (by decide), if_neg (by decide), if_pos rfl]
    unfold stepEE
    dsimp only
    rw [h1, h2]
    simp only [Bool.false_eq_true, if_false, if_true]
    split <;> rfl

/-- Counterexample to C2 as stated: the EE task pairing the
point-degenerate line at the origin with the far-away line
`L((5,5),(6,6))` has a point first box, yet processing it enqueues
nothing at all — no PE reduction takes place, because the second box
does not contain the point. -/
theorem stepTask_EE_point_box_counterexample :
    ((Edge.line ⟨0,0⟩ ⟨0,0⟩).boundingBox O0).isPoint = true ∧
    stepTask O0 20 (2 * T_EPSILON) (-1) 0 ⟨[], [], []⟩
      ⟨0, PT_EE, .ee (.line ⟨0,0⟩ ⟨0,0⟩) (.line ⟨5,5⟩ ⟨6,6⟩), 1/2, 1/2⟩ =
      .ok ⟨[], [], []⟩ := by
  constructor
  · decide
  · decide

/-- Witness for the amended C2: with the same degenerate first edge but
a second edge whose box contains the origin, the EE task does reduce to
the PE task at depth `0` and unchanged parameters. -/
theorem stepTask_EE_point_box_witness :
    stepTask O0 20 (2 * T_EPSILON) (-1) 0 ⟨[], [], []⟩
      ⟨0, PT_EE, .ee (.line ⟨0,0⟩ ⟨0,0⟩) (.line ⟨-1,-1⟩ ⟨1,1⟩), 1/2, 1/2⟩ =
      .ok ⟨[], [], [⟨0, PT_PE, .pe ⟨0,0⟩ (.line ⟨-1,-1⟩ ⟨1,1⟩), 1/2, 1/2⟩]⟩ := by
  have h := (stepTask_EE_point_box O0 20 (2 * T_EPSILON) (-1) 0 ⟨[], [], []⟩ 0 (1/2) (1/2)
    (.line ⟨0,0⟩ ⟨0,0⟩) (.line ⟨-1,-1⟩ ⟨1,1⟩)).1 (by decide)
  rw [h]
  decide

/-- The closeness relation as worded by the spec: both parameter
distances approximately within `max(√2·(r.err + r'.err), ε)`. -/
def specClose (sqrt2 epsilon : ℚ) (r r' : IRes) : Bool :=
  approxQ r.t1 r'.t1 (max (sqrt2 * (r.err + r'.err)) epsilon) &&
  approxQ r.t2 r'.t2 (max (sqrt2 * (r.err + r'.err)) epsilon)

/-- The spec's removal decision for a close pair `(i, j)`, `i < j`: the
member with the larger `err` is removed; on ties the higher-indexed
member (`j`) is removed. -/
def specInner (sqrt2 epsilon : ℚ) (res : List IRes) (i : ℕ) (r1 : IRes) :
    List ℕ → (ℕ → Bool) → (ℕ → Bool)
  | [], rem => rem
  | j :: js, rem =>
      let rem' :=
        if rem j then rem
        else
          let r2 := res.getD j dRes
          if specClose sqrt2 epsilon r1 r2 then
            if r1.err > r2.err then setRem rem i else setRem rem j
          else rem
      specInner sqrt2 epsilon res i r1 js rem'

/-- The spec's outer scan. -/
def specOuter (sqrt2 epsilon : ℚ) (res : List IRes) :
    List ℕ → (ℕ → Bool) → (ℕ → Bool)
  | [], rem => rem
  | i :: is, rem =>
      let rem' :=
        if rem i then rem
        else specInner sqrt2 epsilon res i (res.getD i dRes)
          (List.range' (i + 1) (res.length - (i + 1))) rem
      specOuter sqrt2 epsilon res is rem'

/-- The deduplication pass as described by the spec: one quadratic scan
marking removals in a boolean sidecar, then a filter. -/
def specMerge (sqrt2 : ℚ) (res : List IRes) (epsilon : ℚ) : List IRes :=
  let rem := specOuter sqrt2 epsilon res (List.range res.length) (fun _ => false)
  (res.enum.filter (fun p => !rem p.1)).map Prod.snd

/-- The source's three-way error comparison agrees with the spec's
two-way description pairwise along the inner scan. -/
theorem mergeInner_eq_specInner (sqrt2 epsilon : ℚ) (res : List IRes) (i : ℕ)
    (r1 : IRes) (js : List ℕ) (rem : ℕ → Bool) :
    mergeInner sqrt2 epsilon res i r1 js rem = specInner sqrt2 epsilon res i r1 js rem := by
  induction js generalizing rem with
  | nil => rfl
  | cons j js ih =>
      unfold mergeInner specInner
      dsimp only
      rw [ih]
      split
      · rfl
      · unfold closeRes specClose
        dsimp only
        split
        · split
          · rfl
          · split <;> rfl
        · rfl

/-- The outer scans agree likewise. -/
theorem mergeOuter_eq_specOuter (sqrt2 epsilon : ℚ) (res : List IRes)
    (is : List ℕ) (rem : ℕ → Bool) :
    mergeOuter sqrt2 epsilon res is rem = specOuter sqrt2 epsilon res is rem := by
  induction is generalizing rem with
  | nil => rfl
  | cons i is ih =>
      unfold mergeOuter specOuter
      dsimp only
      rw [ih, mergeInner_eq_specInner]

/-- C7: `mergeNeighboringPoints` implements exactly the deduplication
the spec describes — closeness is approximate equality of both
parameters within `max(√2·(err+err'), ε)`, each examined close pair
drops its larger-`err` member (ties drop the higher index), and the
whole pass is a single quadratic mark-then-filter scan. -/
theorem mergeNeighboringPoints_eq_specMerge (sqrt2 : ℚ) (res : List IRes) (epsilon : ℚ) :
    mergeNeighboringPoints sqrt2 res epsilon = specMerge sqrt2 res epsilon := by
  unfold mergeNeighboringPoints specMerge
  rw [mergeOuter_eq_specOuter]

/-- `setRem` never clears a mark. -/
theorem setRem_mono {rem : ℕ → Bool} {k : ℕ} (m : ℕ) (h : rem k = true) :
    setRem rem m k = true := by
  unfold setRem
  split <;> simp [h]

/-- `setRem` marks its own index. -/
theorem setRem_self (rem : ℕ → Bool) (m : ℕ) : setRem rem m m = true := by
  unfold setRem
  simp

/-- The inner dedup scan never clears a mark. -/
theorem mergeInner_mono (sqrt2 epsilon : ℚ) (res : List IRes) (i : ℕ) (r1 : IRes) :
    ∀ (js : List ℕ) (rem : ℕ → Bool) (k : ℕ), rem k = true →
      mergeInner sqrt2 epsilon res i r1 js rem k = true
  | [], _, _, h => h
  | j :: js, rem, k, h => by
      unfold mergeInner
      dsimp only
      apply mergeInner_mono
      split
      · exact h
      · split
        · split
          · exact setRem_mono i h
          · split <;> exact setRem_mono j h
        · exact h

/-- An index unmarked after the inner scan was unmarked before it. -/
theorem mergeInner_not_removed (sqrt2 epsilon : ℚ) (res : List IRes) (i : ℕ) (r1 : IRes)
    (js : List ℕ) (rem : ℕ → Bool) (k : ℕ)
    (h : mergeInner sqrt2 epsilon res i r1 js rem k = false) : rem k = false := by
  by_contra hc
  rw [mergeInner_mono sqrt2 epsilon res i r1 js rem k
    (by revert hc; cases rem k <;> simp)] at h
  cases h

/-- If the inner scan at pivot `i` leaves both `i` and a visited `j`
unmarked, the pivot record and `res[j]` are not close. -/
theorem mergeInner_close_false (sqrt2 epsilon : ℚ) (res : List IRes) (i : ℕ) (r1 : IRes) :
    ∀ (js : List ℕ) (rem : ℕ → Bool) (j : ℕ), j ∈ js →
      mergeInner sqrt2 epsilon res i r1 js rem i = false →
      mergeInner sqrt2 epsilon res i r1 js rem j = false →
      closeRes sqrt2 epsilon r1 (res.getD j dRes) = false
  | j0 :: js, rem, j, hmem, hi, hj => by
      unfold mergeInner at hi hj
      dsimp only at hi hj
      rcases List.mem_cons.mp hmem with rfl | hmem'
      · have hri := mergeInner_not_removed sqrt2 epsilon res i r1 js _ i hi
        have hrj := mergeInner_not_removed sqrt2 epsilon res i r1 js _ j hj
        by_cases hr : rem j = true
        · rw [if_pos hr] at hrj
          rw [hr] at hrj
          cases hrj
        · rw [if_neg hr] at hri hrj
          by_cases hc : closeRes sqrt2 epsilon r1 (res.getD j dRes) = true
          · exfalso
            rw [if_pos hc] at hri hrj
            by_cases he : r1.err > (res.getD j dRes).err
            · rw [if_pos he] at hri
              rw [setRem_self rem i] at hri
              cases hri
            · rw [if_neg he] at hrj
              revert hrj
              split <;> (rw [setRem_self rem j]; exact fun h => by cases h)
          · exact Bool.eq_false_iff.mpr hc
      · exact mergeInner_close_false sqrt2 epsilon res i r1 js _ j hmem' hi hj

/-- The outer dedup scan never clears a mark. -/
theorem mergeOuter_mono (sqrt2 epsilon : ℚ) (res : List IRes) :
    ∀ (is : List ℕ) (rem : ℕ → Bool) (k : ℕ), rem k = true →
      mergeOuter sqrt2 epsilon res is rem k = true
  | [], _, _, h => h
  | i :: is, rem, k, h => by
      unfold mergeOuter
      dsimp only
      apply mergeOuter_mono
      split
      · exact h
      · exact mergeInner_mono sqrt2 epsilon res i _ _ rem k h

/-- An index unmarked after the outer scan was unmarked before it. -/
theorem mergeOuter_not_removed (sqrt2 epsilon : ℚ) (res : List IRes)
    (is : List ℕ) (rem : ℕ → Bool) (k : ℕ)
    (h : mergeOuter sqrt2 epsilon res is rem k = false) : rem k = false := by
  by_contra hc
  rw [mergeOuter_mono sqrt2 epsilon res is rem k
    (by revert hc; cases rem k <;> simp)] at h
  cases h

/-- If the whole scan leaves two indices `i < j < |res|` unmarked (with
`i` among the visited outer indices), the corresponding records are not
close. -/
theorem mergeOuter_close_false (sqrt2 epsilon : ℚ) (res : List IRes) :
    ∀ (is : List ℕ) (rem : ℕ → Bool) (i j : ℕ), i ∈ is → i < j → j < res.length →
      mergeOuter sqrt2 epsilon res is rem i = false →
      mergeOuter sqrt2 epsilon res is rem j = false →
      closeRes sqrt2 epsilon (res.getD i dRes) (res.getD j dRes) = false
  | i0 :: is, rem, i, j, hmem, hij, hjn, hi, hj => by
      unfold mergeOuter at hi hj
      dsimp only at hi hj
      rcases List.mem_cons.mp hmem with rfl | hmem'
      · by_cases hr : rem i = true
        · rw [if_pos hr] at hi
          rw [mergeOuter_not_removed sqrt2 epsilon res is rem i hi] at hr
          cases hr
        · rw [if_neg hr] at hi hj
          have hri := mergeOuter_not_removed sqrt2 epsilon res is _ i hi
          have hrj := mergeOuter_not_removed sqrt2 epsilon res is _ j hj
          exact mergeInner_close_false sqrt2 epsilon res i (res.getD i dRes) _ rem j
            (List.mem_range'_1.mpr ⟨hij, by omega⟩) hri hrj
      · exact mergeOuter_close_false sqrt2 epsilon res is _ i j hmem' hij hjn hi hj

/-- The index components of `enumFrom` are strictly increasing. -/
theorem pairwise_fst_lt_enumFrom {α : Type} :
    ∀ (n : ℕ) (l : List α), (List.enumFrom n l).Pairwise (fun a b => a.1 < b.1)
  | _, [] => .nil
  | n, x :: xs => by
      refine List.Pairwise.cons ?_ (pairwise_fst_lt_enumFrom (n + 1) xs)
      intro b hb
      have := (List.mem_enumFrom (show ((b.1 : ℕ), b.2) ∈ List.enumFrom (n + 1) xs from hb)).1
      simpa using this

/-- A member of `enum` carries its own element: `res.getD p.1 = p.2`. -/
theorem mem_enum_getD {α : Type} {l : List α} {p : ℕ × α} (d : α) (h : p ∈ l.enum) :
    l.getD p.1 d = p.2 ∧ p.1 < l.length := by
  rw [List.enum_eq_enumFrom] at h
  have h' := List.mem_enumFrom (show (p.1, p.2) ∈ List.enumFrom 0 l from h)
  obtain ⟨-, h2, h3⟩ := h'
  refine ⟨?_, by omega⟩
  rw [List.getD_eq_getElem l d (by omega)]
  simp at h3
  exact h3.symm

/-- C9: `mergeNeighboringPoints` returns a sublist of its input (kept
in order, unmodified), and no two distinct retained results are close:
their `(t1, t2)` pairs are never both approx-equal within
`max(√2·(err+err'), ε)`. -/
theorem mergeNeighboringPoints_retained (sqrt2 : ℚ) (res : List IRes) (epsilon : ℚ) :
    (mergeNeighboringPoints sqrt2 res epsilon).Sublist res ∧
    (mergeNeighboringPoints sqrt2 res epsilon).Pairwise
      (fun r r' => closeRes sqrt2 epsilon r r' = false) := by
  unfold mergeNeighboringPoints
  constructor
  · have h := (List.filter_sublist
      (p := fun p => !mergeOuter sqrt2 epsilon res (List.range res.length)
        (fun _ => false) p.1) res.enum).map Prod.snd
    rwa [List.enum_map_snd] at h
  · rw [List.pairwise_map]
    refine List.Pairwise.imp_of_mem ?_
      (List.Pairwise.sublist (List.filter_sublist res.enum)
        (by rw [List.enum_eq_enumFrom]; exact pairwise_fst_lt_enumFrom 0 res))
    intro a b ha hb hlt
    rw [List.mem_filter] at ha hb
    obtain ⟨hae, hak⟩ := ha
    obtain ⟨hbe, hbk⟩ := hb
    rw [Bool.not_eq_true'] at hak hbk
    obtain ⟨hag, han⟩ := mem_enum_getD dRes hae
    obtain ⟨hbg, hbn⟩ := mem_enum_getD dRes hbe
    rw [← hag, ← hbg]
    exact mergeOuter_close_false sqrt2 epsilon res (List.range res.length)
      (fun _ => false) a.1 b.1 (List.mem_range.mpr han) hlt hbn hak hbk

/-- C6: for each split pair `(s_i, s_j)`, `i < j`, handed to the
general intersector by `selfIntersections`, the first special point set
holds `{t=0, start}` iff `i = 0` and `{t=1, end}` iff `j ≠ i+1` and
nothing else; the second is exactly `[{t=1, end}]`; and every local
engine result is mapped to global parameters `t + ratio·u` (for the
respective split) before the deduplication pass runs. -/
theorem selfIntersections_special_points (i j : ℕ) (e : Edge) :
    ((⟨0, e.start⟩ : EPt) ∈ selfSP1 i j e ↔ i = 0) ∧
    ((⟨1, e.endPt⟩ : EPt) ∈ selfSP1 i j e ↔ j ≠ i + 1) ∧
    (∀ x ∈ selfSP1 i j e, x = ⟨0, e.start⟩ ∨ x = ⟨1, e.endPt⟩) ∧
    selfSP2 e = [⟨1, e.endPt⟩] ∧
    (∀ (O : Oracle) (splits : List Split) (depth : ℕ) (epsilon : ℚ)
        (maxIteration : ℤ) (fuel : ℕ) (pairs : List (ℕ × ℕ)) (acc : List IRes)
        (f : ℕ × ℕ → List IRes),
      (∀ p ∈ pairs,
        intersectionsWSP O (splits.getD p.1 dSplit).edge (splits.getD p.2 dSplit).edge
          (selfSP1 p.1 p.2 (splits.getD p.1 dSplit).edge)
          (selfSP2 (splits.getD p.2 dSplit).edge)
          depth epsilon maxIteration fuel = .finite (f p)) →
      selfLoop O splits depth epsilon maxIteration fuel pairs acc =
        .finite (acc ++ pairs.flatMap (fun p => (f p).map (fun r =>
          ⟨(splits.getD p.1 dSplit).t + (splits.getD p.1 dSplit).ratio * r.t1,
           (splits.getD p.2 dSplit).t + (splits.getD p.2 dSplit).ratio * r.t2,
           r.err⟩)))) ∧
    (∀ (O : Oracle) (sqrt2 : ℚ) (edge : Edge) (depth : ℕ) (epsilon : ℚ)
        (maxIteration : ℤ) (fuel : ℕ) (res : List IRes),
      selfLoop O
          (buildSplits edge 0 (((sortByT (edge.extremePoints O)).drop 1).dropLast))
          depth epsilon maxIteration fuel
          (pairIdx (buildSplits edge 0
            (((sortByT (edge.extremePoints O)).drop 1).dropLast)).length) [] =
        .finite res →
      selfIntersections O sqrt2 edge depth epsilon maxIteration fuel =
        .pts ((mergeNeighboringPoints sqrt2 res epsilon).map
          (fun r => pointFromParams edge edge r.t1 r.t2))) := by
  refine ⟨?_, ?_, ?_, rfl, ?_, ?_⟩
  · unfold selfSP1
    split_ifs with h <;> simp [h]
  · unfold selfSP1
    split_ifs with h h2 <;> simp_all [EPt.mk.injEq] <;> omega
  · intro x hx
    unfold selfSP1 at hx
    revert hx
    split_ifs <;> simp_all
  · intro O splits depth epsilon maxIteration fuel pairs
    induction pairs with
    | nil => intro acc f _; simp [selfLoop]
    | cons p rest ih =>
        intro acc f h
        obtain ⟨pi, pj⟩ := p
        unfold selfLoop
        dsimp only
        rw [h (pi, pj) (List.mem_cons_self _ _)]
        dsimp only
        rw [ih _ f (fun q hq => h q (List.mem_cons_of_mem _ hq))]
        simp [List.append_assoc]
  · intro O sqrt2 edge depth epsilon maxIteration fuel res h
    unfold selfIntersections
    dsimp only
    rw [h]

/-- Witness for C6 on a concrete adjacent split pair `(0, 1)`: the
first special point set holds the global start (since `i = 0`) and the
pair loop on two disjoint split edges completes with the globalized
(empty) result list. -/
theorem selfIntersections_special_points_witness :
    ((⟨0, (Edge.line ⟨0,0⟩ ⟨1,0⟩).start⟩ : EPt) ∈ selfSP1 0 1 (.line ⟨0,0⟩ ⟨1,0⟩)) ∧
    selfLoop O0 [⟨.line ⟨0,0⟩ ⟨1,0⟩, 0, 1/2⟩, ⟨.line ⟨10,10⟩ ⟨11,10⟩, 1/2, 1/2⟩]
      20 (2 * T_EPSILON) (-1) 10 [(0, 1)] [] = .finite [] := by
  constructor
  · exact ((selfIntersections_special_points 0 1 (.line ⟨0,0⟩ ⟨1,0⟩)).1).mpr rfl
  · have h := (selfIntersections_special_points 0 1 (.line ⟨0,0⟩ ⟨1,0⟩)).2.2.2.2.1
      O0 [⟨.line ⟨0,0⟩ ⟨1,0⟩, 0, 1/2⟩, ⟨.line ⟨10,10⟩ ⟨11,10⟩, 1/2, 1/2⟩]
      20 (2 * T_EPSILON) (-1) 10 [(0, 1)] [] (fun _ => []) (by decide)
    simpa using h

/-- The number of exact (`err = 0`) records in a result list. -/
def countExact (l : List IRes) : ℕ := l.countP (fun r => r.err == 0)

/-- A task is well formed when its type string is one of the four `PT`
constants and its payload has the matching shape. -/
def wfTask (tk : SubTask) : Bool :=
  if tk.type = PT_PP then (match tk.pair with | .pp _ _ => true | _ => false)
  else if tk.type = PT_PE then (match tk.pair with | .pe _ _ => true | _ => false)
  else if tk.type = PT_EP then (match tk.pair with | .ep _ _ => true | _ => false)
  else if tk.type = PT_EE then (match tk.pair with | .ee _ _ => true | _ => false)
  else false

/-- The engine-state invariant: the exact-result side list holds
exactly the `err = 0` records of the result list, and every queued task
is well formed. -/
def EngInv (st : EngS) : Prop :=
  countExact st.res = st.exactRes.length ∧ ∀ tk ∈ st.queue, wfTask tk = true

/-- `pushResult` preserves the engine invariant. -/
theorem EngInv_pushResult (epsilon : ℚ) (st : EngS) (t1 t2 err : ℚ)
    (h : EngInv st) : EngInv (pushResult epsilon st t1 t2 err) := by
  obtain ⟨hc, hq⟩ := h
  unfold pushResult
  split
  · exact ⟨hc, hq⟩
  · refine ⟨?_, hq⟩
    dsimp only
    unfold countExact at hc ⊢
    rw [List.countP_append]
    split
    · next he => simp [List.countP_cons, he, hc]
    · next he => simp [List.countP_cons, he, hc]

/-- `enqueue` preserves the engine invariant when the new task is well
formed. -/
theorem EngInv_enqueue (st : EngS) (i : ℕ) (ty : String) (pr : Pair) (t1 t2 : ℚ)
    (h : EngInv st) (hwf : wfTask ⟨i, ty, pr, t1, t2⟩ = true) :
    EngInv (enqueue st i ty pr t1 t2) := by
  obtain ⟨hc, hq⟩ := h
  refine ⟨hc, ?_⟩
  intro tk htk
  rcases List.mem_append.mp htk with hm | hm
  · exact hq tk hm
  · rw [List.mem_singleton.mp hm]
    exact hwf

/-- Folding an invariant-preserving update preserves the invariant. -/
theorem EngInv_foldl {α : Type} (f : EngS → α → EngS)
    (hf : ∀ st x, EngInv st → EngInv (f st x)) :
    ∀ (l : List α) (st : EngS), EngInv st → EngInv (l.foldl f st)
  | [], _, h => h
  | x :: l, st, h => EngInv_foldl f hf l (f st x) (hf st x h)

/-- The nine-way split enqueue of the EE case preserves the invariant. -/
theorem EngInv_enqueueEESplit (st : EngS) (i : ℕ) (t1 t2 delta : ℚ) (e1 e2 : Edge)
    (h : EngInv st) : EngInv (enqueueEESplit st i t1 t2 delta e1 e2) := by
  unfold enqueueEESplit
  dsimp only
  repeat' apply EngInv_enqueue
  · exact h
  all_goals rfl

/-- The PP case preserves the invariant. -/
theorem stepPP_EngInv (epsilon : ℚ) (st : EngS) (t1 t2 : ℚ) (p1 p2 : Pt) (st' : EngS)
    (h : stepPP epsilon st t1 t2 p1 p2 = .ok st') (hI : EngInv st) : EngInv st' := by
  unfold stepPP at h
  split at h
  · injection h with h
    subst h
    exact EngInv_pushResult epsilon st t1 t2 0 hI
  · injection h with h
    subst h
    exact hI

/-- The PE case preserves the invariant and never errs. -/
theorem stepPE_EngInv (O : Oracle) (depth : ℕ) (epsilon : ℚ) (maxIteration : ℤ)
    (itr : ℕ) (st : EngS) (i : ℕ) (t1 t2 err delta : ℚ) (p1 : Pt) (e2 : Edge) :
    (∀ st', stepPE O depth epsilon maxIteration itr st i t1 t2 err delta p1 e2 = .ok st' →
      EngInv st → EngInv st') ∧
    stepPE O depth epsilon maxIteration itr st i t1 t2 err delta p1 e2 ≠ .unknownPair ∧
    stepPE O depth epsilon maxIteration itr st i t1 t2 err delta p1 e2 ≠ .badPayload := by
  unfold stepPE
  dsimp only
  have hst1 : ∀ hI : EngInv st, EngInv (if (e2.boundingBox O).hasOnEdge p1 = true then
      (e2.extremePoints O).foldl
        (fun s ep2 => enqueue s i PT_PP (.pp p1 ep2.point) t1 (t2 + (ep2.t - 1/2) * (1/2) ^ i))
        st
    else st) := by
    intro hI
    split
    · exact EngInv_foldl _ (fun s x hs => EngInv_enqueue s _ _ _ _ _ hs (by rfl)) _ st hI
    · exact hI
  split
  · refine ⟨?_, by simp, by simp⟩
    intro st' h hI
    injection h with h
    subst h
    exact EngInv_enqueue st _ _ _ _ _ hI rfl
  · split
    · split
      · refine ⟨?_, by simp, by simp⟩
        intro st' h hI
        injection h with h
        subst h
        exact EngInv_pushResult _ _ _ _ _ (hst1 hI)
      · split
        · exact ⟨fun st' h hI => by simp at h, by simp, by simp⟩
        · refine ⟨?_, by simp, by simp⟩
          intro st' h hI
          injection h with h
          subst h
          refine EngInv_enqueue _ _ _ _ _ _ ?_ (by rfl)
          refine EngInv_enqueue _ _ _ _ _ _ ?_ (by rfl)
          refine EngInv_enqueue _ _ _ _ _ _ ?_ (by rfl)
          apply EngInv_foldl _ (fun s x hs => ?_) _ _ (hst1 hI)
          split
          · exact hs
          · exact EngInv_pushResult _ _ _ _ _ hs
    · refine ⟨?_, by simp, by simp⟩
      intro st' h hI
      injection h with h
      subst h
      exact hst1 hI

/-- The EP case preserves the invariant and never errs. -/
theorem stepEP_EngInv (O : Oracle) (depth : ℕ) (epsilon : ℚ) (maxIteration : ℤ)
    (itr : ℕ) (st : EngS) (i : ℕ) (t1 t2 err delta : ℚ) (e1 : Edge) (p2 : Pt) :
    (∀ st', stepEP O depth epsilon maxIteration itr st i t1 t2 err delta e1 p2 = .ok st' →
      EngInv st → EngInv st') ∧
    stepEP O depth epsilon maxIteration itr st i t1 t2 err delta e1 p2 ≠ .unknownPair ∧
    stepEP O depth epsilon maxIteration itr st i t1 t2 err delta e1 p2 ≠ .badPayload := by
  unfold stepEP
  dsimp only
  have hst1 : ∀ hI : EngInv st, EngInv (if (e1.boundingBox O).hasOnEdge p2 = true then
      (e1.extremePoints O).foldl
        (fun s ep1 => enqueue s i PT_PP (.pp ep1.point p2) (t1 + (ep1.t - 1/2) * (1/2) ^ i) t2)
        st
    else st) := by
    intro hI
    split
    · exact EngInv_foldl _ (fun s x hs => EngInv_enqueue s _ _ _ _ _ hs (by rfl)) _ st hI
    · exact hI
  split
  · refine ⟨?_, by simp, by simp⟩
    intro st' h hI
    injection h with h
    subst h
    exact EngInv_enqueue st _ _ _ _ _ hI rfl
  · split
    · split
      · refine ⟨?_, by simp, by simp⟩
        intro st' h hI
        injection h with h
        subst h
        exact EngInv_pushResult _ _ _ _ _ (hst1 hI)
      · split
        · exact ⟨fun st' h hI => by simp at h, by simp, by simp⟩
        · refine ⟨?_, by simp, by simp⟩
          intro st' h hI
          injection h with h
          subst h
          refine EngInv_enqueue _ _ _ _ _ _ ?_ (by rfl)
          refine EngInv_enqueue _ _ _ _ _ _ ?_ (by rfl)
          refine EngInv_enqueue _ _ _ _ _ _ ?_ (by rfl)
          apply EngInv_foldl _ (fun s x hs => ?_) _ _ (hst1 hI)
          split
          · exact hs
          · exact EngInv_pushResult _ _ _ _ _ hs
    · refine ⟨?_, by simp, by simp⟩
      intro st' h hI
      injection h with h
      subst h
      exact hst1 hI

set_option maxHeartbeats 2000000 in
seal pushResult enqueue enqueueEESplit EngInv in
/-- The EE case preserves the invariant and never errs. -/
theorem stepEE_EngInv (O : Oracle) (depth : ℕ) (epsilon : ℚ) (maxIteration : ℤ)
    (itr : ℕ) (st : EngS) (i : ℕ) (t1 t2 err delta : ℚ) (e1 e2 : Edge) :
    (∀ st', stepEE O depth epsilon maxIteration itr st i t1 t2 err delta e1 e2 = .ok st' →
      EngInv st → EngInv st') ∧
    stepEE O depth epsilon maxIteration itr st i t1 t2 err delta e1 e2 ≠ .unknownPair ∧
    stepEE O depth epsilon maxIteration itr st i t1 t2 err delta e1 e2 ≠ .badPayload := by
  have key : ∀ r, stepEE O depth epsilon maxIteration itr st i t1 t2 err delta e1 e2 = r →
      r = .indet ∨ ∃ st'', r = .ok st'' ∧ (EngInv st → EngInv st'') := by
    intro r hr
    unfold stepEE at hr
    dsimp only at hr
    rcases hLL : intersectionsLLBulk (Edge.line e1.start e1.endPt)
      (Edge.line e2.start e2.endPt) with - | l
    all_goals rw [hLL] at hr
    all_goals (repeat' split at hr)
    all_goals subst hr
    any_goals (left; rfl)
    all_goals refine Or.inr ⟨_, rfl, fun hI => ?_⟩
    all_goals first
      | exact EngInv_enqueue st _ _ _ _ _ hI rfl
      | exact EngInv_pushResult _ _ _ _ _ hI
      | exact EngInv_enqueueEESplit _ _ _ _ _ _ _ hI
      | exact hI
  refine ⟨?_, ?_, ?_⟩
  · intro st' h hI
    rcases key _ h with hk | ⟨st'', hk, hinv⟩
    · exact StepRes.noConfusion hk
    · injection hk with hk
      subst hk
      exact hinv hI
  · intro h
    rcases key _ h with hk | ⟨st'', hk, -⟩ <;> exact StepRes.noConfusion hk
  · intro h
    rcases key _ h with hk | ⟨st'', hk, -⟩ <;> exact StepRes.noConfusion hk

/-- The PP case never errs. -/
theorem stepPP_ne (epsilon : ℚ) (st : EngS) (t1 t2 : ℚ) (p1 p2 : Pt) :
    stepPP epsilon st t1 t2 p1 p2 ≠ .unknownPair ∧
    stepPP epsilon st t1 t2 p1 p2 ≠ .badPayload := by
  unfold stepPP
  split <;> simp

/-- Dispatching a well-formed task preserves the invariant and reaches
neither the unknown-pair-type branch nor a payload mismatch. -/
theorem stepTask_EngInv (O : Oracle) (depth : ℕ) (epsilon : ℚ) (maxIteration : ℤ)
    (itr : ℕ) (st : EngS) (tk : SubTask) (hwf : wfTask tk = true) :
    (∀ st', stepTask O depth epsilon maxIteration itr st tk = .ok st' →
      EngInv st → EngInv st') ∧
    stepTask O depth epsilon maxIteration itr st tk ≠ .unknownPair ∧
    stepTask O depth epsilon maxIteration itr st tk ≠ .badPayload := by
  rcases tk with ⟨i, ty, pr, t1, t2⟩
  unfold wfTask at hwf
  unfold stepTask
  dsimp only at hwf ⊢
  by_cases h1 : ty = PT_PP
  · rw [if_pos h1] at hwf ⊢
    cases pr with
    | pp p1 p2 =>
        exact ⟨fun st' h hI => stepPP_EngInv epsilon st t1 t2 p1 p2 st' h hI,
          (stepPP_ne epsilon st t1 t2 p1 p2).1, (stepPP_ne epsilon st t1 t2 p1 p2).2⟩
    | pe p1 e2 => exact absurd hwf (by simp)
    | ep e1 p2 => exact absurd hwf (by simp)
    | ee e1 e2 => exact absurd hwf (by simp)
  · rw [if_neg h1] at hwf ⊢
    by_cases h2 : ty = PT_PE
    · rw [if_pos h2] at hwf ⊢
      cases pr with
      | pe p1 e2 => exact stepPE_EngInv O depth epsilon maxIteration itr st i t1 t2 _ _ p1 e2
      | pp p1 p2 => exact absurd hwf (by simp)
      | ep e1 p2 => exact absurd hwf (by simp)
      | ee e1 e2 => exact absurd hwf (by simp)
    · rw [if_neg h2] at hwf ⊢
      by_cases h3 : ty = PT_EP
      · rw [if_pos h3] at hwf ⊢
        cases pr with
        | ep e1 p2 => exact stepEP_EngInv O depth epsilon maxIteration itr st i t1 t2 _ _ e1 p2
        | pp p1 p2 => exact absurd hwf (by simp)
        | pe p1 e2 => exact absurd hwf (by simp)
        | ee e1 e2 => exact absurd hwf (by simp)
      · rw [if_neg h3] at hwf ⊢
        by_cases h4 : ty = PT_EE
        · rw [if_pos h4] at hwf ⊢
          cases pr with
          | ee e1 e2 => exact stepEE_EngInv O depth epsilon maxIteration itr st i t1 t2 _ _ e1 e2
          | pp p1 p2 => exact absurd hwf (by simp)
          | pe p1 e2 => exact absurd hwf (by simp)
          | ep e1 p2 => exact absurd hwf (by simp)
        · rw [if_neg h4] at hwf
          cases hwf

/-- Every task of the initial queue is well formed. -/
theorem seedQueue_wf (edge1 edge2 : Edge) (sp1 sp2 : List EPt) :
    ∀ tk ∈ seedQueue edge1 edge2 sp1 sp2, wfTask tk = true := by
  intro tk htk
  unfold seedQueue at htk
  simp only [List.mem_append, List.mem_flatMap, List.mem_map, List.mem_singleton] at htk
  rcases htk with ((⟨a, -, b, -, h⟩ | ⟨a, -, h⟩) | ⟨b, -, h⟩) | h <;> first | (rw [← h]; rfl) | (rw [h]; rfl)

/-- The loop invariant carried by `runLoop`: from a well-formed state
whose exact-result count is within the Bézout budget, the loop never
errs, and a `.finite` outcome holds at most `maxInts` exact results. -/
theorem runLoop_EngInv (O : Oracle) (depth : ℕ) (epsilon : ℚ) (maxIteration : ℤ)
    (maxInts : ℕ) :
    ∀ (fuel itr : ℕ) (st : EngS), EngInv st → st.exactRes.length ≤ maxInts →
      runLoop O depth epsilon maxIteration maxInts fuel itr st ≠ .unknownPair ∧
      runLoop O depth epsilon maxIteration maxInts fuel itr st ≠ .badPayload ∧
      (∀ l, runLoop O depth epsilon maxIteration maxInts fuel itr st = .finite l →
        countExact l ≤ maxInts) := by
  intro fuel
  induction fuel with
  | zero =>
      intro itr st hI hlen
      exact ⟨by simp [runLoop], by simp [runLoop], fun l h => by simp [runLoop] at h⟩
  | succ fuel ih =>
      intro itr st hI hlen
      obtain ⟨res, exactR, queue⟩ := st
      cases queue with
      | nil =>
          refine ⟨by simp [runLoop], by simp [runLoop], ?_⟩
          intro l h
          have hl : res = l := by
            have : runLoop O depth epsilon maxIteration maxInts (fuel+1) itr
                ⟨res, exactR, []⟩ = .finite res := rfl
            rw [this] at h
            injection h
          rw [← hl]
          calc countExact res = exactR.length := hI.1
            _ ≤ maxInts := hlen
      | cons tk rest =>
          have hwf : wfTask tk = true := hI.2 tk (List.mem_cons_self _ _)
          have hI' : EngInv ⟨res, exactR, rest⟩ :=
            ⟨hI.1, fun t ht => hI.2 t (List.mem_cons_of_mem _ ht)⟩
          obtain ⟨hok, hne1, hne2⟩ :=
            stepTask_EngInv O depth epsilon maxIteration itr ⟨res, exactR, rest⟩ tk hwf
          have hrun : runLoop O depth epsilon maxIteration maxInts (fuel+1) itr
              ⟨res, exactR, tk :: rest⟩ =
              match stepTask O depth epsilon maxIteration itr ⟨res, exactR, rest⟩ tk with
              | .indet => .indet
              | .unknownPair => .unknownPair
              | .badPayload => .badPayload
              | .ok st' =>
                  if st'.exactRes.length > maxInts then .indet
                  else runLoop O depth epsilon maxIteration maxInts fuel (itr + 1) st' := rfl
          cases hstep : stepTask O depth epsilon maxIteration itr ⟨res, exactR, rest⟩ tk with
          | indet =>
              rw [hrun, hstep]
              exact ⟨by simp, by simp, fun l h => by simp at h⟩
          | unknownPair => exact absurd hstep hne1
          | badPayload => exact absurd hstep hne2
          | ok st' =>
              rw [hrun, hstep]
              dsimp only
              split
              · exact ⟨by simp, by simp, fun l h => by simp at h⟩
              · next hle => exact ih (itr + 1) st' (hok st' hstep hI') (by omega)

/-- The engine itself never reaches the unknown-pair-type branch nor a
payload mismatch. -/
theorem intersectionsWSP_no_error (O : Oracle) (edge1 edge2 : Edge) (sp1 sp2 : List EPt)
    (depth : ℕ) (epsilon : ℚ) (maxIteration : ℤ) (fuel : ℕ) :
    intersectionsWSP O edge1 edge2 sp1 sp2 depth epsilon maxIteration fuel ≠ .unknownPair ∧
    intersectionsWSP O edge1 edge2 sp1 sp2 depth epsilon maxIteration fuel ≠ .badPayload := by
  have h := runLoop_EngInv O depth epsilon maxIteration (edge1.degree * edge2.degree)
    fuel 0 ⟨[], [], seedQueue edge1 edge2 sp1 sp2⟩
    ⟨rfl, seedQueue_wf edge1 edge2 sp1 sp2⟩ (Nat.zero_le _)
  exact ⟨h.1, h.2.1⟩

/-- The pair loop of `selfIntersections` only propagates engine
outcomes, so it cannot produce the error outcomes either. -/
theorem selfLoop_no_error (O : Oracle) (splits : List Split) (depth : ℕ) (epsilon : ℚ)
    (maxIteration : ℤ) (fuel : ℕ) :
    ∀ (pairs : List (ℕ × ℕ)) (acc : List IRes),
      selfLoop O splits depth epsilon maxIteration fuel pairs acc ≠ .unknownPair ∧
      selfLoop O splits depth epsilon maxIteration fuel pairs acc ≠ .badPayload
  | [], acc => by simp [selfLoop]
  | (i, j) :: rest, acc => by
      unfold selfLoop
      dsimp only
      cases hE : intersectionsWSP O (splits.getD i dSplit).edge (splits.getD j dSplit).edge
          (selfSP1 i j (splits.getD i dSplit).edge) (selfSP2 (splits.getD j dSplit).edge)
          depth epsilon maxIteration fuel with
      | finite rs => exact selfLoop_no_error O splits depth epsilon maxIteration fuel rest _
      | indet => exact ⟨by simp, by simp⟩
      | unknownPair =>
          exact absurd hE (intersectionsWSP_no_error O _ _ _ _ depth epsilon maxIteration fuel).1
      | badPayload =>
          exact absurd hE (intersectionsWSP_no_error O _ _ _ _ depth epsilon maxIteration fuel).2
      | outOfFuel => exact ⟨by simp, by simp⟩

/-- C1: a finite result list of the subdivision engine holds at most
`degree(edge1)·degree(edge2)` exact (`err = 0`) records, and whenever
processing a task leaves more recorded exact results than that Bézout
bound, the run returns the Indeterminate marker instead of a list. -/
theorem intersectionsWSP_bezout_bound (O : Oracle) (edge1 edge2 : Edge)
    (sp1 sp2 : List EPt) (depth : ℕ) (epsilon : ℚ) (maxIteration : ℤ) :
    (∀ (fuel : ℕ) (l : List IRes),
      intersectionsWSP O edge1 edge2 sp1 sp2 depth epsilon maxIteration fuel = .finite l →
      countExact l ≤ edge1.degree * edge2.degree) ∧
    (∀ (fuel itr : ℕ) (res exactR : List IRes) (tk : SubTask) (rest : List SubTask)
        (st' : EngS),
      stepTask O depth epsilon maxIteration itr ⟨res, exactR, rest⟩ tk = .ok st' →
      st'.exactRes.length > edge1.degree * edge2.degree →
      runLoop O depth epsilon maxIteration (edge1.degree * edge2.degree) (fuel + 1) itr
        ⟨res, exactR, tk :: rest⟩ = .indet) := by
  constructor
  · intro fuel l h
    exact (runLoop_EngInv O depth epsilon maxIteration (edge1.degree * edge2.degree)
      fuel 0 ⟨[], [], seedQueue edge1 edge2 sp1 sp2⟩
      ⟨rfl, seedQueue_wf edge1 edge2 sp1 sp2⟩ (Nat.zero_le _)).2.2 l h
  · intro fuel itr res exactR tk rest st' hstep hgt
    have hrun : runLoop O depth epsilon maxIteration (edge1.degree * edge2.degree)
        (fuel + 1) itr ⟨res, exactR, tk :: rest⟩ =
        match stepTask O depth epsilon maxIteration itr ⟨res, exactR, rest⟩ tk with
        | .indet => .indet
        | .unknownPair => .unknownPair
        | .badPayload => .badPayload
        | .ok st'' =>
            if st''.exactRes.length > edge1.degree * edge2.degree then .indet
            else runLoop O depth epsilon maxIteration (edge1.degree * edge2.degree) fuel
              (itr + 1) st'' := rfl
    rw [hrun, hstep]
    dsimp only
    rw [if_pos hgt]

/-- Witness for C1: two disjoint quadratics run to completion with the
empty result list (zero exact results, within the Bézout bound of `4`),
and a state already holding one exact result turns Indeterminate as
soon as a processed PP task pushes a second one past the line/line
bound of `1`. -/
theorem intersectionsWSP_bezout_bound_witness :
    intersectionsWSP O0 (.quad ⟨0,0⟩ ⟨1,1⟩ ⟨2,0⟩) (.quad ⟨10,0⟩ ⟨11,1⟩ ⟨12,0⟩) [] []
      20 (2 * T_EPSILON) (-1) 3 = .finite [] ∧
    countExact [] ≤ 4 ∧
    runLoop O0 20 (2 * T_EPSILON) (-1) 1 1 0
      ⟨[⟨9, 9, 0⟩], [⟨9, 9, 0⟩], [⟨0, PT_PP, .pp ⟨0,0⟩ ⟨0,0⟩, 1/2, 1/2⟩]⟩ = .indet := by
  refine ⟨by decide, ?_, ?_⟩
  · have h := (intersectionsWSP_bezout_bound O0 (.quad ⟨0,0⟩ ⟨1,1⟩ ⟨2,0⟩)
      (.quad ⟨10,0⟩ ⟨11,1⟩ ⟨12,0⟩) [] [] 20 (2 * T_EPSILON) (-1)).1 3 [] (by decide)
    simpa using h
  · exact (intersectionsWSP_bezout_bound O0 (.line ⟨0,0⟩ ⟨1,0⟩) (.line ⟨0,0⟩ ⟨1,0⟩)
      [] [] 20 (2 * T_EPSILON) (-1)).2 0 0 [⟨9, 9, 0⟩] [⟨9, 9, 0⟩]
      ⟨0, PT_PP, .pp ⟨0,0⟩ ⟨0,0⟩, 1/2, 1/2⟩ []
      ⟨[⟨9, 9, 0⟩, ⟨1/2, 1/2, 0⟩], [⟨9, 9, 0⟩, ⟨1/2, 1/2, 0⟩], []⟩
      (by decide) (by decide)

/-- C8: the "unknown pair type" branch of the task dispatch is
unreachable — every task of the initial seeding is one of the four
tagged kinds, processing a well-formed task of a well-formed state only
enqueues well-formed tasks, and consequently neither the engine nor
`intersections` nor `selfIntersections` ever terminates with the
unknown-pair-type (or payload-mismatch) error. -/
theorem unknown_pair_type_unreachable (O : Oracle) (sqrt2 : ℚ) (edge1 edge2 edge : Edge)
    (sp1 sp2 : List EPt) (depth : ℕ) (epsilon : ℚ) (maxIteration : ℤ) (fuel : ℕ) :
    (∀ tk ∈ seedQueue edge1 edge2 sp1 sp2, wfTask tk = true) ∧
    (∀ (itr : ℕ) (st st' : EngS) (tk : SubTask), wfTask tk = true → EngInv st →
      stepTask O depth epsilon maxIteration itr st tk = .ok st' →
      ∀ t ∈ st'.queue, wfTask t = true) ∧
    intersectionsWSP O edge1 edge2 sp1 sp2 depth epsilon maxIteration fuel ≠ .unknownPair ∧
    intersections O sqrt2 edge1 edge2 depth epsilon maxIteration fuel ≠ .unknownPair ∧
    selfIntersections O sqrt2 edge depth epsilon maxIteration fuel ≠ .unknownPair := by
  refine ⟨seedQueue_wf edge1 edge2 sp1 sp2, ?_, ?_, ?_, ?_⟩
  · intro itr st st' tk hwf hI hstep
    exact ((stepTask_EngInv O depth epsilon maxIteration itr st tk hwf).1 st' hstep hI).2
  · exact (intersectionsWSP_no_error O edge1 edge2 sp1 sp2 depth epsilon maxIteration fuel).1
  · unfold intersections
    split
    · cases intersectionsLL O edge1 edge2 <;> simp
    · cases hE : intersectionsWSP O edge1 edge2 (edge1.extremePoints O)
          (edge2.extremePoints O) depth epsilon maxIteration fuel with
      | unknownPair =>
          exact absurd hE
            (intersectionsWSP_no_error O edge1 edge2 _ _ depth epsilon maxIteration fuel).1
      | finite rs => simp
      | indet => simp
      | badPayload => simp
      | outOfFuel => simp
  · unfold selfIntersections
    dsimp only
    cases hL : selfLoop O
        (buildSplits edge 0 (((sortByT (edge.extremePoints O)).drop 1).dropLast))
        depth epsilon maxIteration fuel
        (pairIdx (buildSplits edge 0
          (((sortByT (edge.extremePoints O)).drop 1).dropLast)).length) [] with
    | unknownPair =>
        exact absurd hL
          (selfLoop_no_error O _ depth epsilon maxIteration fuel _ _).1
    | finite rs => simp
    | indet => simp
    | badPayload => simp
    | outOfFuel => simp

/-- Witness for C8: a concrete well-formed PP task processed from the
empty state enqueues only well-formed tasks, and a concrete engine run
does not end in the unknown-pair-type error. -/
theorem unknown_pair_type_unreachable_witness :
    (∀ t ∈ (⟨[], [], []⟩ : EngS).queue, wfTask t = true) ∧
    intersectionsWSP O0 (.line ⟨0,0⟩ ⟨1,0⟩) (.line ⟨0,1⟩ ⟨1,1⟩) [] []
      20 (2 * T_EPSILON) (-1) 3 ≠ .unknownPair := by
  constructor
  · exact (unknown_pair_type_unreachable O0 1 (.line ⟨0,0⟩ ⟨1,0⟩) (.line ⟨0,1⟩ ⟨1,1⟩)
      (.line ⟨0,0⟩ ⟨1,0⟩) [] [] 20 (2 * T_EPSILON) (-1) 3).2.1
      0 ⟨[], [], []⟩ ⟨[], [], []⟩ ⟨0, PT_PP, .pp ⟨0,0⟩ ⟨5,5⟩, 1/2, 1/2⟩
      (by decide) ⟨rfl, by simp⟩ (by decide)
  · exact (unknown_pair_type_unreachable O0 1 (.line ⟨0,0⟩ ⟨1,0⟩) (.line ⟨0,1⟩ ⟨1,1⟩)
      (.line ⟨0,0⟩ ⟨1,0⟩) [] [] 20 (2 * T_EPSILON) (-1) 3).2.2.1
